import Mathlib

/-!
Shallow embedding of the core of xbps-dbulk (src/xbps-dbulk.c): the package
name probe (pkgnamestat), the dep cache parser (readdeps), dep and log stat,
the recursive enrollment (_buildadd), completion propagation (pkgnamedone,
builddone, gendepdone) and the job dispatcher loop (build), with theorems
checking the specification claims about them.

Machine integers: time_t values are modelled as Int with the two sentinels
MTIME_UNKNOWN = -1 and MTIME_MISSING = -2, exactly as in the source. The
size_t field nblock is modelled as Nat; the single place where the source
can wrap it around zero (the pre-decrement in pkgnamedone) is modelled
explicitly with 64-bit wraparound (decWrap).
-/

set_option maxHeartbeats 1000000
set_option maxRecDepth 4000

def MTIME_UNKNOWN : Int := -1
def MTIME_MISSING : Int := -2

/-- Result of lstat-classifying a srcpkgs directory entry. dir carries the
mtime of the template file inside (none when the template itself is absent,
which the source treats as a fatal stat error); symlink carries the raw link
target text and the link mtime; other stands for an entry whose mode matches
neither the S_IFLNK bits nor S_IFDIR (for example a FIFO), on which
pkgnamestat falls through leaving the mtime at MISSING; badlink stands for an
entry whose mode matches the S_IFLNK bits but on which readlink fails
(a regular file), a fatal error in the source. -/
inductive SrcEntry
  | dir (tmpl : Option Int)
  | symlink (target : String) (mtime : Int)
  | absent
  | other
  | badlink

/-- The per-pkgname part of the global state: struct pkgname fields mtime,
srcpkg, dirty and the reverse use edges (pkgname.use, a list of builds keyed
by (source pkgname, builder key)). Entries are created lazily in the source
(mkpkgname); here every name is always present, with the mkpkgname defaults
(mtime UNKNOWN, no srcpkg, not dirty, no uses). -/
structure Names where
  mtime : String → Int
  srcpkg : String → Option String
  dirty : String → Bool
  use : String → List (String × String)

def initNames : Names :=
  { mtime := fun _ => MTIME_UNKNOWN, srcpkg := fun _ => none,
    dirty := fun _ => false, use := fun _ => [] }

def setMtime (st : Names) (n : String) (v : Int) : Names :=
  { st with mtime := fun m => if m = n then v else st.mtime m }

def setSrc (st : Names) (n : String) (v : Option String) : Names :=
  { st with srcpkg := fun m => if m = n then v else st.srcpkg m }

def setDirty (st : Names) (n : String) (v : Bool) : Names :=
  { st with dirty := fun m => if m = n then v else st.dirty m }

def addUse (st : Names) (n : String) (k : String × String) : Names :=
  { st with use := fun m => if m = n then st.use m ++ [k] else st.use m }

inductive PErr
  | fuel
  | fatal
deriving DecidableEq

/-- Character level prefix test (the core String.isPrefixOf is opaque to
kernel reduction, so the string functions used here are spelled out over
character lists). -/
def isPre : List Char → List Char → Bool
  | [], _ => true
  | _ :: _, [] => false
  | a :: as, b :: bs => a = b && isPre as bs

/-- p is a prefix of k. -/
def preOf (p k : String) : Bool := isPre p.toList k.toList

/-- s ends with suf. -/
def endsWithStr (s suf : String) : Bool := isPre suf.toList.reverse s.toList.reverse

/-- Drop the last n characters of s. -/
def dropRightStr (s : String) (n : Nat) : String :=
  String.mk (s.toList.take (s.toList.length - n))

/-- The strrchr suffix test of pkgnamestat: the last dash starts exactly
"-dbg" or "-32bit" if and only if the name ends with that suffix (neither
suffix contains a further dash); strlcpy then keeps everything before it. -/
def stripName? (name : String) : Option String :=
  if endsWithStr name "-dbg" then some (dropRightStr name 4)
  else if endsWithStr name "-32bit" then some (dropRightStr name 6)
  else none

/-- Trailing slash stripping of the readlink result (with a warning on
stderr in the source). -/
def stripSlash (s : String) : String :=
  if endsWithStr s "/" then dropRightStr s 1 else s

/-- pkgnamestat, lines 173-234. The Nat argument is recursion fuel standing
for the call stack; the source terminates because every recursive call is on
a name whose mtime is still UNKNOWN and the entry mtime is set to MISSING
first. fatal models fprintf+exit(1). -/
def pkgnamestat (fs : String → SrcEntry) : Nat → Names → String → Except PErr Names
  | 0, _, _ => .error .fuel
  | fuel+1, st, name =>
    let st1 := setMtime st name MTIME_MISSING
    match fs name with
    | .absent =>
      match stripName? name with
      | some src =>
        let st2 := setSrc st1 name (some src)
        if st2.mtime src = MTIME_UNKNOWN then
          match pkgnamestat fs fuel st2 src with
          | .error e => .error e
          | .ok st3 => .ok (setMtime st3 name (st3.mtime src))
        else .ok (setMtime st2 name (st2.mtime src))
      | none => .error .fatal
    | .symlink target m =>
      let st2 := setMtime st1 name m
      match st2.srcpkg name with
      | some _ => .ok st2
      | none =>
        let tgt := stripSlash target
        let st3 := setSrc st2 name (some tgt)
        if st3.mtime tgt = MTIME_UNKNOWN then pkgnamestat fs fuel st3 tgt
        else .ok st3
    | .dir none => .error .fatal
    | .dir (some tm) => .ok (setMtime st1 name tm)
    | .other => .ok st1
    | .badlink => .error .fatal

/-- Parser state constants of readdeps: Shostdep, Smakedep, Stargdep,
Ssubpkgs, and skipk for an array key that matched none of them (state is
Sarray alone; elements are consumed and dropped). -/
inductive AKind
  | host
  | make
  | targ
  | sub
  | skipk
deriving DecidableEq

/-- The fields readdeps fills in on struct build. -/
structure ParsedDeps where
  version : Option String := none
  revision : Option String := none
  hostdeps : List String := []
  targetdeps : List String := []
  subpkgs : List String := []
deriving DecidableEq

/-- strchr(line, ':'): the characters before the first colon and the
characters after it, or none when the line has no colon. -/
def splitColonAux : List Char → Option (List Char × List Char)
  | [] => none
  | c :: cs =>
    if c = ':' then some ([], cs)
    else match splitColonAux cs with
      | none => none
      | some (pre, post) => some (c :: pre, post)

/-- The strncmp(key, line, d-line) == 0 chain of readdeps: comparing only
the d-line characters before the colon makes this a prefix test of the key
name, in the order of the source. -/
def keyKind (pre : String) : AKind :=
  if preOf pre "hostmakedepends" then .host
  else if preOf pre "makedepends" then .make
  else if preOf pre "depends" then .targ
  else if preOf pre "subpackages" then .sub
  else .skipk

/-- The switch on state & ~Sarray: Shostdep adds a host dep, Smakedep falls
through to Stargdep (both add a target dep), Ssubpkgs adds a subpackage, a
bare Sarray state drops the element. -/
def addElem (ps : ParsedDeps) (k : AKind) (e : String) : ParsedDeps :=
  match k with
  | .host => { ps with hostdeps := ps.hostdeps ++ [e] }
  | .make => { ps with targetdeps := ps.targetdeps ++ [e] }
  | .targ => { ps with targetdeps := ps.targetdeps ++ [e] }
  | .sub => { ps with subpkgs := ps.subpkgs ++ [e] }
  | .skipk => ps

/-- Scalar key handling of readdeps: pkgname is checked first and ignored,
version and revision are overwritten from d+2, anything else is dropped;
the strncmp comparisons are prefix tests as in keyKind. -/
def setScalar (ps : ParsedDeps) (pre v : String) : ParsedDeps :=
  if preOf pre "pkgname" then ps
  else if preOf pre "version" then { ps with version := some v }
  else if preOf pre "revision" then { ps with revision := some v }
  else ps

/-- How control leaves readdeps. fmtErr is the only return statement in the
function, the return -1 at line 420 on a line that reaches the strchr test
without a colon. The function has no return after its loop: when every line
is consumed, control falls off the end of the non-void function with the
build fields updated as recorded in the ParsedDeps, and the int value the
caller receives is indeterminate. fellOff carries exactly those side
effects; it does NOT carry a defined return value. -/
inductive ReadOut
  | fmtErr
  | fellOff (ps : ParsedDeps)
deriving DecidableEq

/-- readdeps, lines 366-435, over the list of input lines (newlines already
stripped, as the source does on each getdelim result). The Option AKind is
the Sarray part of the state. -/
def readdepsGo : ParsedDeps → Option AKind → List String → ReadOut
  | ps, _, [] => .fellOff ps
  | ps, arr, l :: rest =>
    match arr, l.toList with
    | some k, ' ' :: es => readdepsGo (addElem ps k (String.mk es)) (some k) rest
    | _, cs =>
      match splitColonAux cs with
      | none => .fmtErr
      | some (pre, []) => readdepsGo ps (some (keyKind (String.mk pre))) rest
      | some (pre, _ :: vs) =>
        readdepsGo (setScalar ps (String.mk pre) (String.mk vs)) none rest

def readdeps (lines : List String) : ReadOut := readdepsGo {} none lines

/-- Specification-level classification of one input line given the current
list context: an element of an open list block, a line opening a list block
(key followed by a bare colon), a scalar line (key, colon, value two bytes
after the colon), or a bad line (no colon outside list-element consumption). -/
inductive LineC
  | elem (k : AKind) (e : String)
  | openL (k : AKind)
  | scalar (pre v : String)
  | bad

def classify (ctx : Option AKind) (l : String) : LineC :=
  match ctx, l.toList with
  | some k, ' ' :: es => .elem k (String.mk es)
  | _, cs =>
    match splitColonAux cs with
    | none => .bad
    | some (pre, []) => .openL (keyKind (String.mk pre))
    | some (pre, _ :: vs) => .scalar (String.mk pre) (String.mk vs)

def nextCtx (c : LineC) : Option AKind :=
  match c with
  | .elem k _ => some k
  | .openL k => some k
  | .scalar _ _ => none
  | .bad => none

def applyLine (ps : ParsedDeps) (c : LineC) : ParsedDeps :=
  match c with
  | .elem k e => addElem ps k e
  | .openL _ => ps
  | .scalar pre v => setScalar ps pre v
  | .bad => ps

/-- Specification-level restatement of the dep cache format of spec section
4.2 (with the key-prefix matching the code actually performs): classify each
line in its context, fail on a bad line, otherwise apply its effect. -/
def specParse : Option AKind → ParsedDeps → List String → Option ParsedDeps
  | _, ps, [] => some ps
  | ctx, ps, l :: rest =>
    match classify ctx l with
    | .bad => none
    | c => specParse (nextCtx c) (applyLine ps c) rest

/-- The error condition of readdeps abstracted to the only state it needs:
whether a list block is open. True iff some line lacking a colon is reached
outside list-element consumption. -/
def badLineRun : Bool → List String → Bool
  | _, [] => false
  | inA, l :: rest =>
    match inA, l.toList with
    | true, ' ' :: _ => badLineRun true rest
    | _, cs =>
      match splitColonAux cs with
      | none => true
      | some (_, []) => badLineRun true rest
      | some (_, _ :: _) => badLineRun false rest

/-- struct builder: a target arch and an optional host arch for cross
builds (main creates x86_64 native and aarch64@x86_64 cross). -/
structure Builder where
  arch : String
  host : Option String := none
deriving DecidableEq

/-- The path qualifier arch or arch@host used for deps/ and logs/ paths. -/
def bkey (b : Builder) : String :=
  match b.host with
  | some h => b.arch ++ "@" ++ h
  | none => b.arch

/-- builder->host when set, else the builder itself (line 899). -/
def hostbuilder (b : Builder) : Builder :=
  match b.host with
  | some h => { arch := h, host := none }
  | none => b

/-- The filesystem snapshot consulted by the stat and load operations:
srcpkgs entries by name; dep and dep error file mtimes and the dep file
lines by (builder key, source name), an absent file giving MISSING; log and
log error file mtimes by (builder key, name, version, revision). -/
structure Fs where
  srcpkgs : String → SrcEntry
  dep : String → String → Int
  depErr : String → String → Int
  depLines : String → String → Option (List String)
  log : String → String → String → String → Int
  logErr : String → String → String → String → Int

/-- The flag bits of struct build. -/
structure BFlags where
  work : Bool := false
  cycle : Bool := false
  deps : Bool := false
  dirty : Bool := false
  skip : Bool := false
deriving DecidableEq

/-- struct build (minus the intrusive list links, which the key map and the
work list replace). A fresh record has exactly the mkbuild defaults. -/
structure BuildRec where
  version : Option String := none
  revision : Option String := none
  hostdeps : List String := []
  targetdeps : List String := []
  subpkgs : List String := []
  depmtime : Int := MTIME_UNKNOWN
  deperrmtime : Int := MTIME_UNKNOWN
  logmtime : Int := MTIME_UNKNOWN
  logerrmtime : Int := MTIME_UNKNOWN
  nblock : Nat := 0
  flags : BFlags := {}
deriving DecidableEq

/-- Builds are unique per (source pkgname, builder); the search over
pkgname->builds for a matching builder becomes a map lookup on this key. -/
abbrev BKey := String × String

/-- The global mutable state: pkgname table, build table, the LIFO work
queue and numtotal. -/
structure St where
  names : Names
  builds : BKey → Option BuildRec
  work : List BKey
  numtotal : Nat

def initSt : St :=
  { names := initNames, builds := fun _ => none, work := [], numtotal := 0 }

def getBuild (st : St) (k : BKey) : BuildRec := (st.builds k).getD {}

def setBuild (st : St) (k : BKey) (r : BuildRec) : St :=
  { st with builds := fun k2 => if k2 = k then some r else st.builds k2 }

def updBuild (st : St) (k : BKey) (f : BuildRec → BuildRec) : St :=
  setBuild st k (f (getBuild st k))

/-- queue, lines 437-443: push on the front of the work list. -/
def pushWork (st : St) (k : BKey) : St := { st with work := k :: st.work }

def setDirtyName (st : St) (n : String) (v : Bool) : St :=
  { st with names := setDirty st.names n v }

def addUseSt (st : St) (n : String) (k : BKey) : St :=
  { st with names := addUse st.names n k }

/-- pkgnameuse registrations performed by addhostdep and addtargetdep for
every dependency occurrence, in order. -/
def registerUses (st : St) (k : BKey) (ds : List String) : St :=
  ds.foldl (fun s n => addUseSt s n k) st

/-- depstat, lines 236-269: both mtimes from the dep and dep error cache
files of the source name under the builder key (MISSING when absent). -/
def depstat (fs : Fs) (b : Builder) (r : BuildRec) (name : String) : BuildRec :=
  { r with depmtime := fs.dep (bkey b) name, deperrmtime := fs.depErr (bkey b) name }

/-- logstat, lines 271-304: both mtimes MISSING and no file consulted when
version or revision is unset, else the mtimes of the log and err files named
by name, version and revision. -/
def logstat (fs : Fs) (b : Builder) (r : BuildRec) (name : String) : BuildRec :=
  match r.version, r.revision with
  | some v, some rv =>
    { r with logmtime := fs.log (bkey b) name v rv,
             logerrmtime := fs.logErr (bkey b) name v rv }
  | _, _ => { r with logmtime := MTIME_MISSING, logerrmtime := MTIME_MISSING }

/-- The log freshness decision of _buildadd, lines 879-896: with a missing
log, build when the error log is missing too or older than the template,
else skip; with a log present, leave the flags alone. -/
inductive LogD
  | dirt
  | skipd
  | keep
deriving DecidableEq

def logdecision (logm logerrm srcm : Int) : LogD :=
  if logm = MTIME_MISSING then
    if logerrm = MTIME_MISSING then .dirt
    else if logerrm < srcm then .dirt
    else .skipd
  else .keep

/-- Errors of the enrollment embedding: fuel exhaustion of the model,
the undefined behaviour of the null build pointer write at line 813,
fatal exit(1) paths, and bug for model branches the types cannot exclude. -/
inductive EErr
  | fuel
  | nullDeref
  | fatal
  | bug
deriving DecidableEq

/-- loaddeps, lines 445-470: nothing when DEPS is already set; else read and
parse the dep cache file (absence is exit(1)), append the parsed lists to
the build record, overwrite version and revision only when the file set
them, register a use edge for every host and target dependency occurrence,
and set DEPS. Line 463 compares the value readdeps returned with -1 and
exits on equality. On the fmtErr outcome that value is the defined -1, so
the comparison is true and the program exits. On the fellOff outcome the
compared value is indeterminate (readdeps fell off the end of a non-void
function); modelled here is the run every real execution takes, in which
that value differs from -1 and enrollment continues. -/
def loaddeps (fs : Fs) (b : Builder) (st : St) (k : BKey) : Except EErr St :=
  let r := getBuild st k
  if r.flags.deps then .ok st
  else
    match fs.depLines (bkey b) k.1 with
    | none => .error .fatal
    | some lines =>
      match readdeps lines with
      | .fmtErr => .error .fatal
      | .fellOff ps =>
        let r2 : BuildRec :=
          { r with
            version := match ps.version with | some v => some v | none => r.version,
            revision := match ps.revision with | some v => some v | none => r.revision,
            hostdeps := r.hostdeps ++ ps.hostdeps,
            targetdeps := r.targetdeps ++ ps.targetdeps,
            subpkgs := r.subpkgs ++ ps.subpkgs,
            flags := { r.flags with deps := true } }
        .ok (registerUses (setBuild st k r2) k (ps.hostdeps ++ ps.targetdeps))

/-- Outcome of the straight-line part of _buildadd between the flag setting
and the dependency loops: fall to the out label, or enter the loops with the
dependency list (host deps under the host builder first, then target deps
under the builder), or die. -/
inductive PreOut
  | toTail (st : St)
  | toLoop (st : St) (ds : List (String × Builder))
  | fail (e : EErr)

/-- Lines 852-923 of _buildadd up to the dependency recursion: stat the dep
cache when unknown; when the dep file is missing or older than the template,
either mark DIRTY with nblock 0 (error cache also stale: regenerate) or mark
SKIP and DIRTY (fresh error cache: skip), both falling to out; otherwise
load the deps, stat the log, apply the log freshness decision, zero nblock
and produce the dependency list. -/
def preLoop (fs : Fs) (b : Builder) (st0 : St) (k : BKey) : PreOut :=
  let st := updBuild st0 k (fun r =>
    if r.depmtime = MTIME_UNKNOWN then depstat fs b r k.1 else r)
  let r := getBuild st k
  let m := st.names.mtime k.1
  if r.depmtime < m then
    if r.deperrmtime < m then
      .toTail (updBuild st k (fun r =>
        { r with flags := { r.flags with dirty := true }, nblock := 0 }))
    else
      .toTail (updBuild st k (fun r =>
        { r with flags := { r.flags with skip := true, dirty := true } }))
  else
    match loaddeps fs b st k with
    | .error e => .fail e
    | .ok st =>
      let r := getBuild st k
      if r.flags.deps then
        let r := logstat fs b r k.1
        let st := setBuild st k r
        let cont := fun (st : St) =>
          let st := updBuild st k (fun r => { r with nblock := 0 })
          let r := getBuild st k
          PreOut.toLoop st
            (r.hostdeps.map (fun n => (n, hostbuilder b)) ++
             r.targetdeps.map (fun n => (n, b)))
        match logdecision r.logmtime r.logerrmtime m with
        | .skipd =>
          .toTail (updBuild st k (fun r =>
            { r with flags := { r.flags with skip := true, dirty := true } }))
        | .dirt =>
          cont (updBuild st k (fun r =>
            { r with flags := { r.flags with dirty := true } }))
        | .keep => cont st
      else .toTail st

/-- The err label, lines 927-942: when the build is DIRTY, mark the owning
pkgname and every subpackage name dirty, and unless SKIP is set queue the
build when nblock is zero and count it in numtotal. Returns the state and
the flags the function returns (the stored flags of the build). -/
def errTail (st : St) (k : BKey) : St × BFlags :=
  let r := getBuild st k
  if r.flags.dirty then
    let st1 := setDirtyName st k.1 true
    let st2 := r.subpkgs.foldl (fun s n => setDirtyName s n true) st1
    let st3 :=
      if r.flags.skip then st2
      else
        let stq := if r.nblock = 0 then pushWork st2 k else st2
        { stq with numtotal := stq.numtotal + 1 }
    (st3, r.flags)
  else (st, r.flags)

/-- The out label, line 926: clear CYCLE, then fall into err. -/
def outTail (st : St) (k : BKey) : St × BFlags :=
  errTail (updBuild st k (fun r =>
    { r with flags := { r.flags with cycle := false } })) k

/-- Exit from the dependency loops: a propagated cycle marks the build SKIP
and DIRTY and goes to err without clearing CYCLE; otherwise fall to out. -/
def afterLoop (st : St) (k : BKey) (cyc : Bool) : St × BFlags :=
  if cyc then
    errTail (updBuild st k (fun r =>
      { r with flags := { r.flags with skip := true, dirty := true } })) k
  else outTail st k

/-- Lines 810-818 of _buildadd: probe the name when its mtime is UNKNOWN;
when the probe leaves it MISSING the source writes through the still null
build pointer, which is the nullDeref outcome. -/
def probeStage (fs : Fs) (fuel : Nat) (st : St) (name : String) : Except EErr St :=
  if st.names.mtime name = MTIME_UNKNOWN then
    match pkgnamestat fs.srcpkgs fuel st.names name with
    | .error .fuel => .error .fuel
    | .error .fatal => .error .fatal
    | .ok ns =>
      if ns.mtime name = MTIME_MISSING then .error .nullDeref
      else .ok { st with names := ns }
  else .ok st

/-- Defunctionalized calls of the enrollment recursion: add is _buildadd on
a name and builder; loop runs the dependency loops of the build at key over
the remaining dependency list. -/
inductive ECall
  | add (st : St) (name : String) (b : Builder)
  | loop (st : St) (key : BKey) (ds : List (String × Builder))

/-- Results: addR carries the int _buildadd returns, decoded into flag bits
(the early WORK return 0 is the all-false record); loopR carries the state
and whether a cycle was propagated out of the loop. -/
inductive EOut
  | addR (fl : BFlags) (st : St)
  | loopR (st : St) (cyc : Bool)

/-- The recursion of _buildadd, lines 805-943, with fuel standing for the
call stack (every recursive call and loop step consumes one unit). The add
case: probe, resolve the owning source, find or create the build, the CYCLE
entry check (SKIP|DIRTY and err), the WORK entry check (return 0), set
CYCLE and WORK and clear DIRTY, run preLoop, then the dependency loops. The
loop case: enroll each dependency in order; a CYCLE result aborts the loop;
a DIRTY result increments nblock of the build at key. -/
def enrollGo (fs : Fs) : Nat → ECall → Except EErr EOut
  | 0, _ => .error .fuel
  | fuel+1, .loop st key ds =>
    match ds with
    | [] => .ok (.loopR st false)
    | (d, db) :: rest =>
      match enrollGo fs fuel (.add st d db) with
      | .error e => .error e
      | .ok (.loopR _ _) => .error .bug
      | .ok (.addR f st2) =>
        if f.cycle then .ok (.loopR st2 true)
        else
          let st3 :=
            if f.dirty then
              updBuild st2 key (fun r => { r with nblock := r.nblock + 1 })
            else st2
          enrollGo fs fuel (.loop st3 key rest)
  | fuel+1, .add st name b =>
    match probeStage fs (fuel+1) st name with
    | .error e => .error e
    | .ok st =>
      let src := (st.names.srcpkg name).getD name
      let key : BKey := (src, bkey b)
      let r := getBuild st key
      if r.flags.cycle then
        let p := errTail (updBuild st key (fun r =>
          { r with flags := { r.flags with skip := true, dirty := true } })) key
        .ok (.addR p.2 p.1)
      else if r.flags.work then .ok (.addR {} st)
      else
        let st := updBuild st key (fun r =>
          { r with flags := { r.flags with cycle := true, work := true, dirty := false } })
        match preLoop fs b st key with
        | .fail e => .error e
        | .toTail st2 =>
          let p := outTail st2 key
          .ok (.addR p.2 p.1)
        | .toLoop st2 ds =>
          match enrollGo fs fuel (.loop st2 key ds) with
          | .error e => .error e
          | .ok (.addR _ _) => .error .bug
          | .ok (.loopR st3 cyc) =>
            let p := afterLoop st3 key cyc
            .ok (.addR p.2 p.1)

/-- buildadd, lines 945-955: run _buildadd and drop the flags (the ELOOP
comparison never matches a flag combination and only suppresses a final
newline). -/
def buildadd (fs : Fs) (fuel : Nat) (st : St) (name : String) (b : Builder) :
    Except EErr St :=
  match enrollGo fs fuel (.add st name b) with
  | .error e => .error e
  | .ok (.addR _ st) => .ok st
  | .ok (.loopR st _) => .ok st

/-- The size_t pre-decrement of pkgnamedone: wraps around at zero. -/
def decWrap (n : Nat) : Nat := if n = 0 then 2 ^ 64 - 1 else n - 1

/-- One iteration of the pkgnamedone loop body: skip edges whose build does
not have WORK set, else decrement nblock (with the size_t wraparound of the
source) and queue the build when it reaches zero. The none case cannot occur
in the source, where use edges are build pointers. -/
def doneStep (s : St) (k : BKey) : St :=
  match s.builds k with
  | none => s
  | some r =>
    if r.flags.work then
      let r2 := { r with nblock := decWrap r.nblock }
      let s2 := setBuild s k r2
      if r2.nblock = 0 then pushWork s2 k else s2
    else s

/-- pkgnamedone, lines 631-643: clear the pkgname dirty mark, then run the
loop body over every use edge of the name. -/
def pkgnamedone (st : St) (p : String) : St :=
  let st1 := setDirtyName st p false
  (st1.names.use p).foldl doneStep st1

/-- Completion propagation for the owning pkgname and every subpackage, as
performed by builddone on success and by the dry run branch of build. -/
def pkgDoneAll (st : St) (k : BKey) : St :=
  (k.1 :: (getBuild st k).subpkgs).foldl pkgnamedone st

/-- The suffix the temporary log file is renamed to, plus the state. -/
structure DoneOut where
  renamedTo : String
  st : St

/-- builddone, lines 645-690: on failure rename the .tmp log to .err and
nothing else; on success rename it to .log, clear DIRTY, and run pkgnamedone
for the owning pkgname and every subpackage. -/
def builddone (st : St) (k : BKey) (failed : Bool) : DoneOut :=
  if failed then { renamedTo := ".err", st := st }
  else
    { renamedTo := ".log",
      st := pkgDoneAll
        (updBuild st k (fun r => { r with flags := { r.flags with dirty := false } })) k }

/-- The success path of gendepdone, lines 524-551: after the renames (the
caller passes the post-rename filesystem), clear WORK, re-stat the dep
cache, and re-enroll the same source under the same builder. -/
def gendepdoneOk (fs2 : Fs) (fuel : Nat) (st : St) (k : BKey) (b : Builder) :
    Except EErr St :=
  let st := updBuild st k (fun r => { r with flags := { r.flags with work := false } })
  let st := updBuild st k (fun r => depstat fs2 b r k.1)
  buildadd fs2 fuel st k.1 b

/-- State of the dispatcher loop of build, lines 957-1027: the graph state,
numjobs, and the live jobs (the pool slots holding a running child), each
remembering the build key and its builder. -/
structure DSt where
  gst : St
  numjobs : Nat
  running : List (BKey × Builder)

/-- Small step relation of the dispatcher loop. start pops a ready build
and spawns a child while numjobs < maxjobs (jobstart succeeding); startFail
is the jobstart failure branch (the item is dropped and numfail counted);
dry is the dry run branch, which simulates instant success; the reap steps
pick any live child (waitpid returns an arbitrary one), run jobdone
(builddone when DEPS is set, else gendepdone, whose success path re-stats
and re-enrolls), and free the slot. -/
inductive DStep (fs : Fs) (fuel maxjobs : Nat) (dryrun : Bool) : DSt → DSt → Prop
  | start (s : DSt) (k : BKey) (b : Builder) (w : List BKey)
      (hw : s.gst.work = k :: w) (hn : s.numjobs < maxjobs) (hd : dryrun = false)
      (hb : bkey b = k.2) :
      DStep fs fuel maxjobs dryrun s
        ⟨{ s.gst with work := w }, s.numjobs + 1, (k, b) :: s.running⟩
  | startFail (s : DSt) (k : BKey) (w : List BKey)
      (hw : s.gst.work = k :: w) (hn : s.numjobs < maxjobs) (hd : dryrun = false) :
      DStep fs fuel maxjobs dryrun s ⟨{ s.gst with work := w }, s.numjobs, s.running⟩
  | dry (s : DSt) (k : BKey) (w : List BKey)
      (hw : s.gst.work = k :: w) (hn : s.numjobs < maxjobs) (hd : dryrun = true) :
      DStep fs fuel maxjobs dryrun s
        ⟨pkgDoneAll { s.gst with work := w } k, s.numjobs, s.running⟩
  | reapBuild (s : DSt) (k : BKey) (b : Builder) (u v : List (BKey × Builder))
      (failed : Bool) (hr : s.running = u ++ (k, b) :: v)
      (hdeps : (getBuild s.gst k).flags.deps = true) :
      DStep fs fuel maxjobs dryrun s
        ⟨(builddone s.gst k failed).st, s.numjobs - 1, u ++ v⟩
  | reapGendepFail (s : DSt) (k : BKey) (b : Builder) (u v : List (BKey × Builder))
      (hr : s.running = u ++ (k, b) :: v)
      (hdeps : (getBuild s.gst k).flags.deps = false) :
      DStep fs fuel maxjobs dryrun s ⟨s.gst, s.numjobs - 1, u ++ v⟩
  | reapGendepOk (s : DSt) (k : BKey) (b : Builder) (u v : List (BKey × Builder))
      (st2 : St) (hr : s.running = u ++ (k, b) :: v)
      (hdeps : (getBuild s.gst k).flags.deps = false)
      (hg : gendepdoneOk fs fuel s.gst k b = .ok st2) :
      DStep fs fuel maxjobs dryrun s ⟨st2, s.numjobs - 1, u ++ v⟩

/-- Entry into the dispatcher loop: no job running yet. -/
def dispatchInit (st0 : St) : DSt := { gst := st0, numjobs := 0, running := [] }

/-- Projections for applying theorems about enrollment results at concrete
inputs. -/
def retFlags (e : Except EErr EOut) : BFlags :=
  match e with
  | .ok (.addR f _) => f
  | _ => {}

def retSt (e : Except EErr EOut) (d : St) : St :=
  match e with
  | .ok (.addR _ s) => s
  | _ => d

/-- The native builder of main (the cross builder aarch64@x86_64 behaves
identically up to path names). -/
def nbX : Builder := { arch := "x86_64" }

/-- Concrete scenario for claim C1: sources a, b and d, all templates at
mtime 5, all dep caches fresh (mtime 10), no logs; a and b both list d in
depends. -/
def c1fs : Fs :=
  { srcpkgs := fun n => if n = "a" ∨ n = "b" ∨ n = "d" then .dir (some 5) else .absent,
    dep := fun _ _ => 10,
    depErr := fun _ _ => -2,
    depLines := fun _ n =>
      if n = "d" then some ["version: 1", "revision: 1"]
      else if n = "a" ∨ n = "b" then
        some ["version: 1", "revision: 1", "depends:", " d"]
      else none,
    log := fun _ _ _ _ => -2,
    logErr := fun _ _ _ _ => -2 }

/-- Enroll a, then b, as the main loop does. -/
def c1run : Except EErr St :=
  match buildadd c1fs 20 initSt "a" nbX with
  | .error e => .error e
  | .ok st => buildadd c1fs 20 st "b" nbX

/-- The same state after the build of d is reaped successfully. -/
def c1post : Option St :=
  match c1run with
  | .ok st => some (builddone st ("d", "x86_64") false).st
  | .error _ => none

/-- Concrete scenario for claim C2: foo and bar depend on each other, both
dep caches fresh, no logs. -/
def c2fs : Fs :=
  { srcpkgs := fun n => if n = "foo" ∨ n = "bar" then .dir (some 5) else .absent,
    dep := fun _ _ => 10,
    depErr := fun _ _ => -2,
    depLines := fun _ n =>
      if n = "foo" then some ["version: 1", "revision: 1", "depends:", " bar"]
      else if n = "bar" then some ["version: 1", "revision: 1", "depends:", " foo"]
      else none,
    log := fun _ _ _ _ => -2,
    logErr := fun _ _ _ _ => -2 }

def c2run : Option St := (buildadd c2fs 20 initSt "foo" nbX).toOption

/-- Witness scenario for the amended claim C2: a single fresh source p with
no dependencies, already probed. -/
def c2wfs : Fs :=
  { srcpkgs := fun _ => .dir (some 5),
    dep := fun _ _ => 10,
    depErr := fun _ _ => -2,
    depLines := fun _ n => if n = "p" then some ["version: 1", "revision: 1"] else none,
    log := fun _ _ _ _ => -2,
    logErr := fun _ _ _ _ => -2 }

def c2wst : St := { initSt with names := setMtime initNames "p" 5 }

def c2wRes : Except EErr EOut := enrollGo c2wfs 9 (.add c2wst "p" nbX)

/-- Witness scenario for claim C3: source q already probed at mtime 5, dep
cache and dep error cache both missing. -/
def c3wfs : Fs :=
  { srcpkgs := fun _ => .dir (some 5),
    dep := fun _ _ => -2,
    depErr := fun _ _ => -2,
    depLines := fun _ _ => none,
    log := fun _ _ _ _ => -2,
    logErr := fun _ _ _ _ => -2 }

def c3wst : St := { initSt with names := setMtime initNames "q" 5 }

/-- Failing input for claim C4: the srcpkgs entry of the name exists but is
neither a directory nor a symlink (a FIFO), so the probe completes with the
mtime left MISSING. -/
def c4fs : Fs :=
  { srcpkgs := fun n => if n = "fifo" then .other else .absent,
    dep := fun _ _ => -2,
    depErr := fun _ _ => -2,
    depLines := fun _ _ => none,
    log := fun _ _ _ _ => -2,
    logErr := fun _ _ _ _ => -2 }

/-- Failing input for claim C5: every srcpkgs entry absent; probing a name
with no -dbg or -32bit suffix. -/
def c5probe : String → SrcEntry := fun _ => .absent

/-- Witness scenario for the amended claim C5: s is a symlink to foo/ (with
a trailing slash) at mtime 7, foo a directory with template mtime 5. -/
def c5wfs : String → SrcEntry := fun n =>
  if n = "s" then .symlink "foo/" 7
  else if n = "foo" then .dir (some 5)
  else .absent

def c5wst2 : Names := ((pkgnamestat c5wfs 5 initNames "s").toOption).getD initNames

/-- Witness scenario for claim C6: build d (WORK, DEPS, DIRTY, done record)
whose pkgname d is used by build u (WORK, nblock 1). -/
def c6r : BuildRec :=
  { flags := { work := true, deps := true, dirty := true } }

def c6ru : BuildRec :=
  { nblock := 1, flags := { work := true, deps := true, dirty := true } }

def c6st : St :=
  { names :=
      { mtime := fun _ => 5, srcpkg := fun _ => none,
        dirty := fun n => if n = "d" then true else false,
        use := fun n => if n = "d" then [("u", "x86_64")] else [] },
    builds := fun k =>
      if k = ("d", "x86_64") then some c6r
      else if k = ("u", "x86_64") then some c6ru
      else none,
    work := [], numtotal := 2 }

/-- Concrete scenario for claim C7 (spec scenario S5 on the rerun): foo
(template mtime 10, touched) depends on bar (template mtime 1); both dep
caches from the previous run at mtime 5, both logs at mtime 6 for the
unchanged version 1_1. -/
def c7fs1 : Fs :=
  { srcpkgs := fun n =>
      if n = "foo" then .dir (some 10)
      else if n = "bar" then .dir (some 1)
      else .absent,
    dep := fun _ n => if n = "foo" ∨ n = "bar" then 5 else -2,
    depErr := fun _ _ => -2,
    depLines := fun _ n =>
      if n = "foo" then some ["version: 1", "revision: 1", "depends:", " bar"]
      else if n = "bar" then some ["version: 1", "revision: 1"]
      else none,
    log := fun _ n _ _ => if n = "foo" ∨ n = "bar" then 6 else -2,
    logErr := fun _ _ _ _ => -2 }

/-- The filesystem after the regenerated dep file of foo is renamed into
place at mtime 20. -/
def c7fs2 : Fs :=
  { c7fs1 with dep := fun bk n => if n = "foo" then 20 else c7fs1.dep bk n }

/-- The enrollment phase of the rerun: foo then bar. -/
def c7run1 : Except EErr St :=
  match buildadd c7fs1 20 initSt "foo" nbX with
  | .error e => .error e
  | .ok st => buildadd c7fs1 20 st "bar" nbX

/-- The dispatcher pops the queued dep extraction job for foo; the job
succeeds and gendepdone re-stats and re-enrolls foo. -/
def c7run2 : Except EErr St :=
  match c7run1 with
  | .error e => .error e
  | .ok st =>
    match st.work with
    | [] => .error .bug
    | k :: w => gendepdoneOk c7fs2 20 { st with work := w } k nbX

/-- Trivial environment for the dispatcher witness of claim C9. -/
def c9wfs : Fs :=
  { srcpkgs := fun _ => .absent,
    dep := fun _ _ => -2,
    depErr := fun _ _ => -2,
    depLines := fun _ _ => none,
    log := fun _ _ _ _ => -2,
    logErr := fun _ _ _ _ => -2 }

/-- Witness record for claim C10: a build whose dep cache lacked a version
key. -/
def c10r : BuildRec := { revision := some "1" }

/- ===================== helper lemmas ===================== -/

theorem builds_setDirtyName (st : St) (n : String) (v : Bool) :
    (setDirtyName st n v).builds = st.builds := rfl

theorem work_setDirtyName (st : St) (n : String) (v : Bool) :
    (setDirtyName st n v).work = st.work := rfl

theorem builds_dirtyFold (l : List String) (st : St) :
    (l.foldl (fun s n => setDirtyName s n true) st).builds = st.builds := by
  induction l generalizing st with
  | nil => rfl
  | cons x xs ih => simpa using ih (setDirtyName st x true)

theorem errTail_builds (st : St) (k : BKey) : (errTail st k).1.builds = st.builds := by
  simp only [errTail]
  split
  · split
    · exact builds_dirtyFold _ _
    · split <;> simp [pushWork, builds_dirtyFold, builds_setDirtyName]
  · rfl

theorem errTail_flags (st : St) (k : BKey) : (errTail st k).2 = (getBuild st k).flags := by
  simp only [errTail]
  split <;> rfl

theorem getBuild_ext (st st2 : St) (k : BKey) (h : st.builds = st2.builds) :
    getBuild st k = getBuild st2 k := by
  unfold getBuild
  rw [h]

theorem errTail_flags2 (st : St) (k : BKey) :
    (errTail st k).2 = (getBuild (errTail st k).1 k).flags := by
  rw [errTail_flags, getBuild_ext (errTail st k).1 st k (errTail_builds st k)]

theorem outTail_flags2 (st : St) (k : BKey) :
    (outTail st k).2 = (getBuild (outTail st k).1 k).flags := by
  unfold outTail
  exact errTail_flags2 _ _

theorem afterLoop_flags2 (st : St) (k : BKey) (c : Bool) :
    (afterLoop st k c).2 = (getBuild (afterLoop st k c).1 k).flags := by
  unfold afterLoop
  split
  · exact errTail_flags2 _ _
  · exact outTail_flags2 _ _

/- ===================== claim theorems ===================== -/

/-- C1: the claim that nblock counts every distinct dirty unfinished
dependency fails in the source. In the concrete scenario c1fs (a and b both
depend on d, everything needing a build), after enrolling a and then b the
build of a counts d (nblock 1) but the build of b does not (nblock 0, the
enrollment of d returned 0 because WORK was already set), b is queued while
d is dirty, WORK flagged and unfinished, and when d then completes,
pkgnamedone wraps the nblock of b around zero to 2 to the 64th minus 1. -/
theorem c1_code_eval :
    (c1run.map fun st =>
      ((getBuild st ("a", "x86_64")).nblock == 1 &&
       (getBuild st ("b", "x86_64")).nblock == 0 &&
       (getBuild st ("d", "x86_64")).flags.dirty &&
       (getBuild st ("d", "x86_64")).flags.work &&
       st.work == [("b", "x86_64"), ("d", "x86_64")])).toOption = some true
    ∧ (c1post.map fun st => (getBuild st ("b", "x86_64")).nblock == 2 ^ 64 - 1)
      = some true := by
  constructor
  · decide
  · decide

/-- C2 counterexample: enrolling foo in the two cycle c2fs terminates the
top level call, yet both builds on the cycle keep the CYCLE flag set (the
err exit of _buildadd skips the clear), contradicting the claim that no
build has CYCLE set once a top level enrollment call has returned. -/
theorem c2_counterexample :
    (c2run.map fun st =>
      ((getBuild st ("foo", "x86_64")).flags.cycle,
       (getBuild st ("bar", "x86_64")).flags.cycle,
       (getBuild st ("foo", "x86_64")).flags.skip,
       (getBuild st ("bar", "x86_64")).flags.skip))
      = some (true, true, true, true) := by decide

/-- C4: the code, not the claim, is wrong. Enrolling a name whose probe
completes with mtime MISSING (c4fs: the srcpkgs entry is neither a
directory nor a symlink) reaches the write build->flags |= FLAG_SKIP |
FLAG_DIRTY with build still NULL, undefined behaviour, modelled as the
nullDeref error; the claim expects SKIP|DIRTY marking and a MISSING
return. -/
theorem c4_nullderef :
    enrollGo c4fs 5 (.add initSt "fifo" nbX) = .error .nullDeref := rfl

/-- C5 counterexample: probing a name whose srcpkgs entry is absent and
which carries no -dbg or -32bit suffix does not complete with mtime
MISSING as the claim states: pkgnamestat falls through the ENOENT branch
to fprintf and exit(1), the fatal outcome. -/
theorem c5_counterexample :
    pkgnamestat c5probe 5 initNames "foo" = .error .fatal := rfl

/-- C7 counterexample: in the S5 rerun (c7fs1: the template of foo touched
to mtime 10, dep caches at 5, logs at 6 for the unchanged version), after
the dep extraction job for foo succeeds and gendepdone re-enrolls foo, foo
is NOT marked dirty and no build job is queued (work is empty), because the
log freshness check of _buildadd only tests whether the log is missing and
never compares its mtime with the template. The claim states foo is rebuilt
producing a new log. -/
theorem c7_counterexample :
    (c7run2.map fun st =>
      ((getBuild st ("foo", "x86_64")).flags.dirty,
       (getBuild st ("foo", "x86_64")).flags.deps,
       st.work)).toOption
      = some (false, true, []) := by decide

/-- C7 amended: in the S5 rerun only the dep cache of foo is regenerated (a
dep extraction job, DEPS unset, is queued for foo and bar is not queued or
dirty), and after the extraction succeeds and foo is re-enrolled, foo is
not rebuilt (not dirty, nothing queued, numtotal still 1): its existing log
for the unchanged version satisfies the log check. bar is skipped as well. -/
theorem c7_amended :
    (c7run1.map fun st =>
      (st.work,
       (getBuild st ("foo", "x86_64")).flags.deps,
       (getBuild st ("foo", "x86_64")).flags.dirty,
       (getBuild st ("bar", "x86_64")).flags.dirty,
       st.numtotal)).toOption
      = some ([("foo", "x86_64")], false, true, false, 1)
    ∧ (c7run2.map fun st =>
      ((getBuild st ("foo", "x86_64")).flags.dirty,
       st.work,
       st.numtotal)).toOption
      = some (false, [], 1) := by
  constructor
  · decide
  · decide

/-- C2 amended: the CYCLE flag is cleared only when an enrollment call exits
through the normal out path; when it exits by propagating a detected cycle
the flag stays set on the build (and hence on every build along the unwound
path, see the counterexample). In all cases the flags a call returns agree
with the stored CYCLE flag of the enrolled build: in particular a call
returning without the CYCLE bit leaves the build with CYCLE clear. -/
theorem c2_cycleflag (fs : Fs) (fuel : Nat) (st : St) (name : String) (b : Builder)
    (fl : BFlags) (st2 : St)
    (hm : st.names.mtime name ≠ MTIME_UNKNOWN)
    (h : enrollGo fs fuel (.add st name b) = .ok (.addR fl st2)) :
    fl.cycle = (getBuild st2 ((st.names.srcpkg name).getD name, bkey b)).flags.cycle := by
  cases fuel with
  | zero => simp [enrollGo] at h
  | succ n =>
    rw [enrollGo] at h
    simp only [probeStage, if_neg hm] at h
    split at h
    · simp only [Except.ok.injEq, EOut.addR.injEq] at h
      obtain ⟨h1, h2⟩ := h
      subst h1; subst h2
      rw [errTail_flags2]
    · split at h
      · simp only [Except.ok.injEq, EOut.addR.injEq] at h
        obtain ⟨h1, h2⟩ := h
        subst h1; subst h2
        simp_all
      · split at h
        · simp at h
        · simp only [Except.ok.injEq, EOut.addR.injEq] at h
          obtain ⟨h1, h2⟩ := h
          subst h1; subst h2
          rw [outTail_flags2]
        · split at h
          · simp at h
          · simp at h
          · simp only [Except.ok.injEq, EOut.addR.injEq] at h
            obtain ⟨h1, h2⟩ := h
            subst h1; subst h2
            rw [afterLoop_flags2]

/-- Witness for c2_cycleflag at the concrete single source scenario. -/
theorem c2_witness :
    c2wst.names.mtime "p" ≠ MTIME_UNKNOWN
    ∧ c2wRes = .ok (.addR (retFlags c2wRes) (retSt c2wRes initSt))
    ∧ (retFlags c2wRes).cycle
        = (getBuild (retSt c2wRes initSt) ("p", "x86_64")).flags.cycle :=
  ⟨by decide, rfl,
   c2_cycleflag c2wfs 9 c2wst "p" nbX (retFlags c2wRes) (retSt c2wRes initSt)
     (by decide) rfl⟩

theorem getBuild_setBuild_self (st : St) (k : BKey) (r : BuildRec) :
    getBuild (setBuild st k r) k = r := by
  simp [getBuild, setBuild]

theorem getBuild_updBuild_self (st : St) (k : BKey) (f : BuildRec → BuildRec) :
    getBuild (updBuild st k f) k = f (getBuild st k) := by
  simp [updBuild, getBuild_setBuild_self]

theorem builds_setBuild_ne (st : St) (k k2 : BKey) (r : BuildRec) (h : k2 ≠ k) :
    (setBuild st k r).builds k2 = st.builds k2 := by
  simp [setBuild, h]

theorem names_setBuild (st : St) (k : BKey) (r : BuildRec) :
    (setBuild st k r).names = st.names := rfl

theorem work_setBuild (st : St) (k : BKey) (r : BuildRec) :
    (setBuild st k r).work = st.work := rfl

theorem numtotal_setBuild (st : St) (k : BKey) (r : BuildRec) :
    (setBuild st k r).numtotal = st.numtotal := rfl

theorem numtotal_setDirtyName (st : St) (n : String) (v : Bool) :
    (setDirtyName st n v).numtotal = st.numtotal := rfl

theorem work_dirtyFold (l : List String) (st : St) :
    (l.foldl (fun s n => setDirtyName s n true) st).work = st.work := by
  induction l generalizing st with
  | nil => rfl
  | cons x xs ih => simpa using ih (setDirtyName st x true)

theorem numtotal_dirtyFold (l : List String) (st : St) :
    (l.foldl (fun s n => setDirtyName s n true) st).numtotal = st.numtotal := by
  induction l generalizing st with
  | nil => rfl
  | cons x xs ih => simpa using ih (setDirtyName st x true)

theorem errTail_work_queue (st : St) (k : BKey)
    (h1 : (getBuild st k).flags.dirty = true)
    (h2 : (getBuild st k).flags.skip = false)
    (h3 : (getBuild st k).nblock = 0) :
    (errTail st k).1.work = k :: st.work
    ∧ (errTail st k).1.numtotal = st.numtotal + 1 := by
  simp only [errTail, h1, h2, h3, if_true, Bool.false_eq_true, if_false, if_pos]
  constructor
  · simp [pushWork, work_dirtyFold, work_setDirtyName]
  · simp [pushWork, numtotal_dirtyFold, numtotal_setDirtyName]

theorem errTail_work_skip (st : St) (k : BKey)
    (h2 : (getBuild st k).flags.skip = true) :
    (errTail st k).1.work = st.work
    ∧ (errTail st k).1.numtotal = st.numtotal := by
  simp only [errTail, h2, if_true]
  split
  · constructor
    · simp [work_dirtyFold, work_setDirtyName]
    · simp [numtotal_dirtyFold, numtotal_setDirtyName]
  · exact ⟨rfl, rfl⟩

theorem builds_updBuild_self (st : St) (k : BKey) (f : BuildRec → BuildRec) :
    (updBuild st k f).builds k = some (f (getBuild st k)) := by
  simp [updBuild, setBuild]

theorem builds_updBuild_ne (st : St) (k k2 : BKey) (f : BuildRec → BuildRec)
    (h : k2 ≠ k) : (updBuild st k f).builds k2 = st.builds k2 := by
  simp [updBuild, setBuild, h]

theorem outTail_queue (st : St) (k : BKey)
    (h1 : (getBuild st k).flags.dirty = true)
    (h2 : (getBuild st k).flags.skip = false)
    (h3 : (getBuild st k).nblock = 0) :
    (outTail st k).2 = { (getBuild st k).flags with cycle := false }
    ∧ (outTail st k).1.work = k :: st.work
    ∧ (outTail st k).1.numtotal = st.numtotal + 1
    ∧ (outTail st k).1.builds k
        = some { getBuild st k with flags := { (getBuild st k).flags with cycle := false } }
    ∧ ∀ k2, k2 ≠ k → (outTail st k).1.builds k2 = st.builds k2 := by
  have hb : getBuild (updBuild st k fun r =>
      { r with flags := { r.flags with cycle := false } }) k
      = { getBuild st k with flags := { (getBuild st k).flags with cycle := false } } :=
    getBuild_updBuild_self ..
  refine ⟨?_, ?_, ?_, ?_, ?_⟩
  · rw [outTail, errTail_flags, hb]
  · rw [outTail]
    have := (errTail_work_queue (updBuild st k fun r =>
      { r with flags := { r.flags with cycle := false } }) k
      (by rw [hb]; exact h1) (by rw [hb]; exact h2) (by rw [hb]; exact h3)).1
    rw [this, updBuild, work_setBuild]
  · rw [outTail]
    have := (errTail_work_queue (updBuild st k fun r =>
      { r with flags := { r.flags with cycle := false } }) k
      (by rw [hb]; exact h1) (by rw [hb]; exact h2) (by rw [hb]; exact h3)).2
    rw [this, updBuild, numtotal_setBuild]
  · rw [outTail, errTail_builds, builds_updBuild_self]
  · intro k2 hk2
    rw [outTail, errTail_builds, builds_updBuild_ne _ _ _ _ hk2]

theorem outTail_skip (st : St) (k : BKey)
    (h1 : (getBuild st k).flags.dirty = true)
    (h2 : (getBuild st k).flags.skip = true) :
    (outTail st k).2 = { (getBuild st k).flags with cycle := false }
    ∧ (outTail st k).1.work = st.work
    ∧ (outTail st k).1.numtotal = st.numtotal
    ∧ (outTail st k).1.builds k
        = some { getBuild st k with flags := { (getBuild st k).flags with cycle := false } }
    ∧ ∀ k2, k2 ≠ k → (outTail st k).1.builds k2 = st.builds k2 := by
  have hb : getBuild (updBuild st k fun r =>
      { r with flags := { r.flags with cycle := false } }) k
      = { getBuild st k with flags := { (getBuild st k).flags with cycle := false } } :=
    getBuild_updBuild_self ..
  refine ⟨?_, ?_, ?_, ?_, ?_⟩
  · rw [outTail, errTail_flags, hb]
  · rw [outTail]
    have := (errTail_work_skip (updBuild st k fun r =>
      { r with flags := { r.flags with cycle := false } }) k (by rw [hb]; exact h2)).1
    rw [this, updBuild, work_setBuild]
  · rw [outTail]
    have := (errTail_work_skip (updBuild st k fun r =>
      { r with flags := { r.flags with cycle := false } }) k (by rw [hb]; exact h2)).2
    rw [this, updBuild, numtotal_setBuild]
  · rw [outTail, errTail_builds, builds_updBuild_self]
  · intro k2 hk2
    rw [outTail, errTail_builds, builds_updBuild_ne _ _ _ _ hk2]

theorem c3_caseA_pack (stA st0 : St) (k : BKey)
    (h1 : (getBuild stA k).flags.dirty = true)
    (h2 : (getBuild stA k).flags.skip = false)
    (h3 : (getBuild stA k).nblock = 0)
    (h4 : (getBuild stA k).flags.deps = false)
    (hwk : stA.work = st0.work) (hnt : stA.numtotal = st0.numtotal)
    (hbd : ∀ k2, k2 ≠ k → stA.builds k2 = st0.builds k2) :
    (outTail stA k).2.dirty = true
    ∧ (outTail stA k).2.deps = false
    ∧ (outTail stA k).2.skip = false
    ∧ (outTail stA k).2.cycle = false
    ∧ (getBuild (outTail stA k).1 k).flags = (outTail stA k).2
    ∧ (getBuild (outTail stA k).1 k).nblock = 0
    ∧ (outTail stA k).1.work = k :: st0.work
    ∧ (outTail stA k).1.numtotal = st0.numtotal + 1
    ∧ ∀ k2, k2 ≠ k → (outTail stA k).1.builds k2 = st0.builds k2 := by
  obtain ⟨o1, o2, o3, o4, o5⟩ := outTail_queue stA k h1 h2 h3
  have hg : getBuild (outTail stA k).1 k
      = { getBuild stA k with flags := { (getBuild stA k).flags with cycle := false } } := by
    rw [getBuild, o4, Option.getD_some]
  refine ⟨?_, ?_, ?_, ?_, ?_, ?_, ?_, ?_, ?_⟩
  · rw [o1]; exact h1
  · rw [o1]; exact h4
  · rw [o1]; exact h2
  · rw [o1]
  · rw [hg, o1]
  · rw [hg]; exact h3
  · rw [o2, hwk]
  · rw [o3, hnt]
  · intro k2 hk2
    rw [o5 k2 hk2, hbd k2 hk2]

theorem c3_caseB_pack (stA st0 : St) (k : BKey)
    (h1 : (getBuild stA k).flags.dirty = true)
    (h2 : (getBuild stA k).flags.skip = true)
    (hwk : stA.work = st0.work) (hnt : stA.numtotal = st0.numtotal)
    (hbd : ∀ k2, k2 ≠ k → stA.builds k2 = st0.builds k2) :
    (outTail stA k).2.dirty = true
    ∧ (outTail stA k).2.skip = true
    ∧ (getBuild (outTail stA k).1 k).flags = (outTail stA k).2
    ∧ (outTail stA k).1.work = st0.work
    ∧ (outTail stA k).1.numtotal = st0.numtotal
    ∧ ∀ k2, k2 ≠ k → (outTail stA k).1.builds k2 = st0.builds k2 := by
  obtain ⟨o1, o2, o3, o4, o5⟩ := outTail_skip stA k h1 h2
  have hg : getBuild (outTail stA k).1 k
      = { getBuild stA k with flags := { (getBuild stA k).flags with cycle := false } } := by
    rw [getBuild, o4, Option.getD_some]
  refine ⟨?_, ?_, ?_, ?_, ?_, ?_⟩
  · rw [o1]; exact h1
  · rw [o1]; exact h2
  · rw [hg, o1]
  · rw [o2, hwk]
  · rw [o3, hnt]
  · intro k2 hk2
    rw [o5 k2 hk2, hbd k2 hk2]

/-- C3: when the dep cache of a build is missing or older than the template
(effective dep mtime dm below the template mtime m), enrollment marks the
build DIRTY with nblock 0, performs no dependency recursion (no other build
record is touched), leaves DEPS unset, and pushes the build onto the work
queue counting it in numtotal, when the dep error cache is also older than
the template; otherwise it marks the build SKIP and DIRTY and queues
nothing. -/
theorem c3_depfresh (fs : Fs) (fuel : Nat) (st : St) (name : String) (b : Builder)
    (hm : st.names.mtime name ≠ MTIME_UNKNOWN) :
    ∀ src key r dm de m,
    src = (st.names.srcpkg name).getD name →
    key = (src, bkey b) →
    r = getBuild st key →
    r.flags.cycle = false → r.flags.work = false → r.flags.skip = false →
    r.flags.deps = false →
    dm = (if r.depmtime = MTIME_UNKNOWN then fs.dep (bkey b) src else r.depmtime) →
    de = (if r.depmtime = MTIME_UNKNOWN then fs.depErr (bkey b) src else r.deperrmtime) →
    m = st.names.mtime src →
    dm < m →
    ((de < m →
      ∃ fl st2, enrollGo fs (fuel+1) (.add st name b) = .ok (.addR fl st2)
        ∧ fl.dirty = true ∧ fl.deps = false ∧ fl.skip = false ∧ fl.cycle = false
        ∧ (getBuild st2 key).flags = fl
        ∧ (getBuild st2 key).nblock = 0
        ∧ st2.work = key :: st.work
        ∧ st2.numtotal = st.numtotal + 1
        ∧ ∀ k2, k2 ≠ key → st2.builds k2 = st.builds k2)
    ∧ (¬ de < m →
      ∃ fl st2, enrollGo fs (fuel+1) (.add st name b) = .ok (.addR fl st2)
        ∧ fl.dirty = true ∧ fl.skip = true
        ∧ (getBuild st2 key).flags = fl
        ∧ st2.work = st.work
        ∧ st2.numtotal = st.numtotal
        ∧ ∀ k2, k2 ≠ key → st2.builds k2 = st.builds k2)) := by
  intro src key r dm de m hsrc hkey hr hc hw hs hd hdm hde hmm hlt
  subst hsrc; subst hkey; subst hdm; subst hde; subst hmm
  rw [enrollGo]
  simp only [probeStage, if_neg hm]
  rw [← hr, hc, hw]
  simp only [Bool.false_eq_true, if_false]
  simp only [preLoop, getBuild_updBuild_self, names_setBuild, updBuild,
    getBuild_setBuild_self, ← hr, depstat]
  by_cases hU : r.depmtime = MTIME_UNKNOWN
  · simp only [hU, if_true] at hlt ⊢
    rw [if_pos hlt]
    constructor
    · intro hE
      rw [if_pos hE]
      refine ⟨_, _, rfl, ?_⟩
      exact c3_caseA_pack _ st _
        (by rw [getBuild_setBuild_self])
        (by rw [getBuild_setBuild_self]; exact hs)
        (by rw [getBuild_setBuild_self])
        (by rw [getBuild_setBuild_self]; exact hd)
        (by simp [work_setBuild])
        (by simp [numtotal_setBuild])
        (fun k2 hk2 => by
          rw [builds_setBuild_ne _ _ _ _ hk2, builds_setBuild_ne _ _ _ _ hk2,
            builds_setBuild_ne _ _ _ _ hk2])
    · intro hE
      rw [if_neg hE]
      refine ⟨_, _, rfl, ?_⟩
      exact c3_caseB_pack _ st _
        (by rw [getBuild_setBuild_self])
        (by rw [getBuild_setBuild_self])
        (by simp [work_setBuild])
        (by simp [numtotal_setBuild])
        (fun k2 hk2 => by
          rw [builds_setBuild_ne _ _ _ _ hk2, builds_setBuild_ne _ _ _ _ hk2,
            builds_setBuild_ne _ _ _ _ hk2])
  · simp only [hU, if_false] at hlt ⊢
    rw [if_pos hlt]
    constructor
    · intro hE
      rw [if_pos hE]
      refine ⟨_, _, rfl, ?_⟩
      exact c3_caseA_pack _ st _
        (by rw [getBuild_setBuild_self])
        (by rw [getBuild_setBuild_self]; exact hs)
        (by rw [getBuild_setBuild_self])
        (by rw [getBuild_setBuild_self]; exact hd)
        (by simp [work_setBuild])
        (by simp [numtotal_setBuild])
        (fun k2 hk2 => by
          rw [builds_setBuild_ne _ _ _ _ hk2, builds_setBuild_ne _ _ _ _ hk2,
            builds_setBuild_ne _ _ _ _ hk2])
    · intro hE
      rw [if_neg hE]
      refine ⟨_, _, rfl, ?_⟩
      exact c3_caseB_pack _ st _
        (by rw [getBuild_setBuild_self])
        (by rw [getBuild_setBuild_self])
        (by simp [work_setBuild])
        (by simp [numtotal_setBuild])
        (fun k2 hk2 => by
          rw [builds_setBuild_ne _ _ _ _ hk2, builds_setBuild_ne _ _ _ _ hk2,
            builds_setBuild_ne _ _ _ _ hk2])


theorem c3_witness :
    c3wst.names.mtime "q" ≠ MTIME_UNKNOWN
    ∧ ((-2 : Int) < 5)
    ∧ (∃ fl st2, enrollGo c3wfs 5 (.add c3wst "q" nbX) = .ok (.addR fl st2)
        ∧ fl.dirty = true ∧ fl.deps = false ∧ fl.skip = false ∧ fl.cycle = false
        ∧ (getBuild st2 ("q", "x86_64")).flags = fl
        ∧ (getBuild st2 ("q", "x86_64")).nblock = 0
        ∧ st2.work = ("q", "x86_64") :: c3wst.work
        ∧ st2.numtotal = c3wst.numtotal + 1
        ∧ ∀ k2, k2 ≠ ("q", "x86_64") → st2.builds k2 = c3wst.builds k2) :=
  ⟨by decide, by decide,
   (c3_depfresh c3wfs 4 c3wst "q" nbX (by decide) "q" ("q", "x86_64")
      (getBuild c3wst ("q", "x86_64")) (-2) (-2) 5 rfl rfl rfl (by decide) (by decide)
      (by decide) (by decide) (by decide) (by decide) (by decide) (by decide)).1
    (by decide)⟩

/-- C10: when version or revision is unset (for example the dep cache file
lacked the key), logstat sets both log mtimes to MISSING and consults no log
file (the result is independent of the filesystem), and the log freshness
decision for such a build is always dirt, that is build, never skip. -/
theorem c10_logstat (fs fs2 : Fs) (b : Builder) (r : BuildRec) (name : String)
    (m : Int) (h : r.version = none ∨ r.revision = none) :
    (logstat fs b r name).logmtime = MTIME_MISSING
    ∧ (logstat fs b r name).logerrmtime = MTIME_MISSING
    ∧ logstat fs b r name = logstat fs2 b r name
    ∧ logdecision (logstat fs b r name).logmtime (logstat fs b r name).logerrmtime m
        = .dirt := by
  have hl : ∀ g : Fs, logstat g b r name
      = { r with logmtime := MTIME_MISSING, logerrmtime := MTIME_MISSING } := by
    intro g
    cases hv : r.version with
    | none => simp [logstat, hv]
    | some v =>
      cases hrv : r.revision with
      | none => simp [logstat, hv, hrv]
      | some rv =>
        exfalso
        rcases h with h2 | h2
        · rw [hv] at h2; exact Option.noConfusion h2
        · rw [hrv] at h2; exact Option.noConfusion h2
  refine ⟨?_, ?_, ?_, ?_⟩
  · rw [hl fs]
  · rw [hl fs]
  · rw [hl fs, hl fs2]
  · rw [hl fs]
    simp [logdecision, MTIME_MISSING]

/-- Witness for c10_logstat: a record whose version is unset. -/
theorem c10_witness :
    (c10r.version = none ∨ c10r.revision = none)
    ∧ ((logstat c9wfs nbX c10r "z").logmtime = MTIME_MISSING
      ∧ (logstat c9wfs nbX c10r "z").logerrmtime = MTIME_MISSING
      ∧ logstat c9wfs nbX c10r "z"
          = logstat { c9wfs with log := fun _ _ _ _ => 99 } nbX c10r "z"
      ∧ logdecision (logstat c9wfs nbX c10r "z").logmtime
          (logstat c9wfs nbX c10r "z").logerrmtime 5 = .dirt) :=
  ⟨Or.inl rfl,
   c10_logstat c9wfs { c9wfs with log := fun _ _ _ _ => 99 } nbX c10r "z" 5 (Or.inl rfl)⟩

theorem srcpkg_setMtime (st : Names) (a : String) (v : Int) :
    (setMtime st a v).srcpkg = st.srcpkg := rfl

theorem mtime_setSrc (st : Names) (a : String) (v : Option String) :
    (setSrc st a v).mtime = st.mtime := rfl

theorem mtime_setMtime_ne (st : Names) (a n : String) (v : Int) (h : n ≠ a) :
    (setMtime st a v).mtime n = st.mtime n := by
  simp [setMtime, h]

theorem srcpkg_setSrc_ne (st : Names) (a n : String) (v : Option String) (h : n ≠ a) :
    (setSrc st a v).srcpkg n = st.srcpkg n := by
  simp [setSrc, h]

/-- A probe of m only writes the entries of m itself and of names whose
mtime was still UNKNOWN: any other name keeps its mtime and srcpkg. -/
theorem pkgnamestat_preserve (fs : String → SrcEntry) :
    ∀ (fuel : Nat) (st : Names) (m : String) (st2 : Names),
    pkgnamestat fs fuel st m = .ok st2 →
    ∀ n, n ≠ m → st.mtime n ≠ MTIME_UNKNOWN →
    st2.mtime n = st.mtime n ∧ st2.srcpkg n = st.srcpkg n := by
  intro fuel
  induction fuel with
  | zero => intro st m st2 h; simp [pkgnamestat] at h
  | succ f ih =>
    intro st m st2 h n hnm hnu
    rw [pkgnamestat] at h
    cases hfs : fs m with
    | absent =>
      simp only [hfs] at h
      cases hsn : stripName? m with
      | none => simp [hsn] at h
      | some src =>
        simp only [hsn] at h
        split at h
        · rename_i hUk
          cases hrec : pkgnamestat fs f (setSrc (setMtime st m MTIME_MISSING) m (some src)) src with
          | error e => rw [hrec] at h; exact Except.noConfusion h
          | ok st3 =>
            rw [hrec] at h
            simp only [Except.ok.injEq] at h
            subst h
            have hsrcn : src ≠ n := by
              intro he
              rw [he] at hUk
              rw [mtime_setSrc, mtime_setMtime_ne st m n MTIME_MISSING hnm] at hUk
              exact hnu hUk
            have hp := ih _ _ _ hrec n (fun he => hsrcn he.symm)
              (by rw [mtime_setSrc, mtime_setMtime_ne st m n MTIME_MISSING hnm]; exact hnu)
            constructor
            · rw [mtime_setMtime_ne _ _ _ _ hnm, hp.1, mtime_setSrc,
                mtime_setMtime_ne st m n MTIME_MISSING hnm]
            · rw [srcpkg_setMtime, hp.2, srcpkg_setSrc_ne _ _ _ _ hnm, srcpkg_setMtime]
        · simp only [Except.ok.injEq] at h
          subst h
          constructor
          · rw [mtime_setMtime_ne _ _ _ _ hnm, mtime_setSrc,
              mtime_setMtime_ne st m n MTIME_MISSING hnm]
          · rw [srcpkg_setMtime, srcpkg_setSrc_ne _ _ _ _ hnm, srcpkg_setMtime]
    | symlink tgt lm =>
      simp only [hfs] at h
      cases hsp : (setMtime (setMtime st m MTIME_MISSING) m lm).srcpkg m with
      | some s0 =>
        simp only [hsp] at h
        simp only [Except.ok.injEq] at h
        subst h
        exact ⟨by rw [mtime_setMtime_ne _ _ _ _ hnm, mtime_setMtime_ne st m n MTIME_MISSING hnm],
               by rw [srcpkg_setMtime, srcpkg_setMtime]⟩
      | none =>
        simp only [hsp] at h
        split at h
        · rename_i hUk
          have htgtn : stripSlash tgt ≠ n := by
            intro he
            rw [he] at hUk
            rw [mtime_setSrc, mtime_setMtime_ne _ _ _ _ hnm,
              mtime_setMtime_ne st m n MTIME_MISSING hnm] at hUk
            exact hnu hUk
          have hp := ih _ _ _ h n (fun he => htgtn he.symm)
            (by rw [mtime_setSrc, mtime_setMtime_ne _ _ _ _ hnm,
                mtime_setMtime_ne st m n MTIME_MISSING hnm]; exact hnu)
          constructor
          · rw [hp.1, mtime_setSrc, mtime_setMtime_ne _ _ _ _ hnm,
              mtime_setMtime_ne st m n MTIME_MISSING hnm]
          · rw [hp.2, srcpkg_setSrc_ne _ _ _ _ hnm, srcpkg_setMtime, srcpkg_setMtime]
        · simp only [Except.ok.injEq] at h
          subst h
          constructor
          · rw [mtime_setSrc, mtime_setMtime_ne _ _ _ _ hnm,
              mtime_setMtime_ne st m n MTIME_MISSING hnm]
          · rw [srcpkg_setSrc_ne _ _ _ _ hnm, srcpkg_setMtime, srcpkg_setMtime]
    | dir tmpl =>
      cases tmpl with
      | none => simp [hfs] at h
      | some tm =>
        simp only [hfs] at h
        simp only [Except.ok.injEq] at h
        subst h
        exact ⟨by rw [mtime_setMtime_ne _ _ _ _ hnm, mtime_setMtime_ne st m n MTIME_MISSING hnm],
               by rw [srcpkg_setMtime, srcpkg_setMtime]⟩
    | other =>
      simp only [hfs] at h
      simp only [Except.ok.injEq] at h
      subst h
      exact ⟨mtime_setMtime_ne st m n MTIME_MISSING hnm, rfl⟩
    | badlink => simp [hfs] at h

theorem mtime_setMtime_self (st : Names) (a : String) (v : Int) :
    (setMtime st a v).mtime a = v := by
  simp [setMtime]

theorem srcpkg_setSrc_self (st : Names) (a : String) (v : Option String) :
    (setSrc st a v).srcpkg a = v := by
  simp [setSrc]

/-- C5 amended: the probe moves the mtime of a name from UNKNOWN to the
template mtime when the entry is a directory; to the link mtime, with the
slash stripped link target recorded as the owning source, when the entry is
a symbolic link; to the recursively probed stripped name owner mtime when
the entry is absent and the name ends in -dbg or -32bit; and when the entry
is absent otherwise the probe does NOT produce MISSING but aborts fatally
(fprintf and exit(1) in the source). -/
theorem c5_probe (fs : String → SrcEntry) (fuel : Nat) (st : Names) (name : String)
    (h0 : st.mtime name = MTIME_UNKNOWN) :
    (∀ tm, fs name = .dir (some tm) →
      ∃ st2, pkgnamestat fs (fuel+1) st name = .ok st2 ∧ st2.mtime name = tm)
    ∧ (∀ tgt lm, fs name = .symlink tgt lm → st.srcpkg name = none → 0 ≤ lm →
      ∀ st2, pkgnamestat fs (fuel+1) st name = .ok st2 →
        st2.mtime name = lm ∧ st2.srcpkg name = some (stripSlash tgt))
    ∧ (∀ src, fs name = .absent → stripName? name = some src → src ≠ name →
      ∀ st2, pkgnamestat fs (fuel+1) st name = .ok st2 →
        st2.mtime name = st2.mtime src ∧ st2.srcpkg name = some src)
    ∧ (fs name = .absent → stripName? name = none →
      pkgnamestat fs (fuel+1) st name = .error .fatal) := by
  refine ⟨?_, ?_, ?_, ?_⟩
  · intro tm hfs
    rw [pkgnamestat]
    simp only [hfs]
    exact ⟨_, rfl, mtime_setMtime_self _ _ _⟩
  · intro tgt lm hfs hsp hlm st2 h
    rw [pkgnamestat] at h
    simp only [hfs, srcpkg_setMtime, hsp] at h
    have hmn : (setSrc (setMtime (setMtime st name MTIME_MISSING) name lm) name
        (some (stripSlash tgt))).mtime name = lm := by
      rw [mtime_setSrc, mtime_setMtime_self]
    split at h
    · rename_i hUk
      have hne : name ≠ stripSlash tgt := by
        intro he
        rw [← he] at hUk
        rw [mtime_setSrc, mtime_setMtime_self] at hUk
        rw [hUk] at hlm
        simp [MTIME_UNKNOWN] at hlm
      have hp := pkgnamestat_preserve fs fuel _ _ _ h name hne
        (by rw [hmn]; intro he; rw [he] at hlm; simp [MTIME_UNKNOWN] at hlm)
      refine ⟨?_, ?_⟩
      · rw [hp.1, hmn]
      · rw [hp.2, srcpkg_setSrc_self]
    · simp only [Except.ok.injEq] at h
      subst h
      exact ⟨hmn, srcpkg_setSrc_self _ _ _⟩
  · intro src hfs hsn hne st2 h
    rw [pkgnamestat] at h
    simp only [hfs, hsn] at h
    split at h
    · rename_i hUk
      cases hrec : pkgnamestat fs fuel (setSrc (setMtime st name MTIME_MISSING) name (some src)) src with
      | error e => rw [hrec] at h; exact Except.noConfusion h
      | ok st3 =>
        rw [hrec] at h
        simp only [Except.ok.injEq] at h
        subst h
        have hp := pkgnamestat_preserve fs fuel _ _ _ hrec name (fun he => hne he.symm)
          (by rw [mtime_setSrc, mtime_setMtime_self]; simp [MTIME_MISSING, MTIME_UNKNOWN])
        refine ⟨?_, ?_⟩
        · rw [mtime_setMtime_self, mtime_setMtime_ne _ _ _ _ hne]
        · rw [srcpkg_setMtime, hp.2, srcpkg_setSrc_self]
    · simp only [Except.ok.injEq] at h
      subst h
      refine ⟨?_, ?_⟩
      · rw [mtime_setMtime_self, mtime_setMtime_ne _ _ _ _ hne]
      · rw [srcpkg_setMtime, srcpkg_setSrc_self]
  · intro hfs hsn
    rw [pkgnamestat]
    simp only [hfs, hsn]

/-- Witness for c5_probe at the concrete symlink scenario. -/
theorem c5_witness :
    initNames.mtime "s" = MTIME_UNKNOWN
    ∧ initNames.srcpkg "s" = none
    ∧ ((0 : Int) ≤ 7)
    ∧ c5wst2.mtime "s" = 7
    ∧ c5wst2.srcpkg "s" = some "foo" :=
  ⟨rfl, rfl, by decide,
   ((c5_probe c5wfs 4 initNames "s" rfl).2.1 "foo/" 7 rfl rfl (by decide) c5wst2 rfl).1,
   ((c5_probe c5wfs 4 initNames "s" rfl).2.1 "foo/" 7 rfl rfl (by decide) c5wst2 rfl).2⟩

theorem readdepsGo_cons (ps : ParsedDeps) (arr : Option AKind) (l : String)
    (rest : List String) :
    readdepsGo ps arr (l :: rest) =
      match classify arr l with
      | .bad => .fmtErr
      | c => readdepsGo (applyLine ps c) (nextCtx c) rest := by
  by_cases hsp : ∃ k es, arr = some k ∧ l.toList = ' ' :: es
  · obtain ⟨k, es, ha, hl⟩ := hsp
    subst ha
    rw [readdepsGo.eq_2 ps l rest k es hl, classify.eq_1 l k es hl]
    rfl
  · have hno : ∀ k es, arr = some k → l.toList = ' ' :: es → False :=
      fun k es ha hl => hsp ⟨k, es, ha, hl⟩
    rw [readdepsGo.eq_3 ps l rest arr hno, classify.eq_2 l arr hno]
    rcases hsc : splitColonAux l.toList with _ | ⟨pre, _ | ⟨c, vs⟩⟩ <;> rfl

theorem badLineRun_cons (arr : Option AKind) (l : String) (rest : List String) :
    badLineRun arr.isSome (l :: rest) =
      match classify arr l with
      | .bad => true
      | c => badLineRun (nextCtx c).isSome rest := by
  by_cases hsp : ∃ k es, arr = some k ∧ l.toList = ' ' :: es
  · obtain ⟨k, es, ha, hl⟩ := hsp
    subst ha
    rw [show (some k : Option AKind).isSome = true from rfl,
      badLineRun.eq_2 l rest es hl, classify.eq_1 l k es hl]
    rfl
  · have hno : ∀ k es, arr = some k → l.toList = ' ' :: es → False :=
      fun k es ha hl => hsp ⟨k, es, ha, hl⟩
    have hnoB : ∀ tail, arr.isSome = true → l.toList = ' ' :: tail → False := by
      intro tail hA hl
      obtain ⟨k, hk⟩ := Option.isSome_iff_exists.mp hA
      exact hno k tail hk hl
    rw [badLineRun.eq_3 l rest _ hnoB, classify.eq_2 l arr hno]
    rcases hsc : splitColonAux l.toList with _ | ⟨pre, _ | ⟨c, vs⟩⟩ <;> rfl

/-- C8 amended: readdeps executes its one return statement, the -1 of line
420, if and only if some line without a colon is reached outside list
element consumption: a non-indented line without a colon, or an indented
line while no list block is open. On every other stream the parse loop
consumes all lines with the side effects of the specification level parser
specParse (version and revision from the last matching scalar lines, host
deps from hostmakedepends blocks, target deps from both makedepends and
depends blocks in order, subpackages from subpackages blocks, other lines
ignored, keys matched by the prefix rule of the strncmp calls) and control
then falls off the end of the non-void function: there is no success
return, and the int value the caller compares with -1 at line 463 is
indeterminate. -/
theorem c8_parse (lines : List String) : ∀ (ps : ParsedDeps) (arr : Option AKind),
    ((readdepsGo ps arr lines = .fmtErr) ↔ badLineRun arr.isSome lines = true)
    ∧ ∀ out, (readdepsGo ps arr lines = .fellOff out) ↔ specParse arr ps lines = some out := by
  induction lines with
  | nil =>
    intro ps arr
    exact ⟨by simp [readdepsGo, badLineRun], fun out => by simp [readdepsGo, specParse]⟩
  | cons l rest ih =>
    intro ps arr
    rw [readdepsGo_cons, badLineRun_cons]
    cases hc : classify arr l with
    | bad =>
      refine ⟨by simp, fun out => ?_⟩
      rw [specParse.eq_2, hc]
      simp
    | elem k e =>
      refine ⟨(ih (applyLine ps (.elem k e)) (nextCtx (.elem k e))).1, fun out => ?_⟩
      rw [specParse.eq_2, hc]
      exact (ih (applyLine ps (.elem k e)) (nextCtx (.elem k e))).2 out
    | openL k =>
      refine ⟨(ih (applyLine ps (.openL k)) (nextCtx (.openL k))).1, fun out => ?_⟩
      rw [specParse.eq_2, hc]
      exact (ih (applyLine ps (.openL k)) (nextCtx (.openL k))).2 out
    | scalar pre v =>
      refine ⟨(ih (applyLine ps (.scalar pre v)) (nextCtx (.scalar pre v))).1, fun out => ?_⟩
      rw [specParse.eq_2, hc]
      exact (ih (applyLine ps (.scalar pre v)) (nextCtx (.scalar pre v))).2 out

/-- C8 counterexample: the stream consisting of the single indented line
" x" has no non-indented line at all, yet readdeps executes the return -1:
the indented line is reached outside a list block, falls through to the
colon test and has no colon. The claim says such a stream succeeds. -/
theorem c8_counterexample :
    readdeps [" x"] = .fmtErr
    ∧ (" x").toList.head? = some ' '
    ∧ splitColonAux (" x").toList = none := by
  refine ⟨?_, ?_, ?_⟩
  · decide
  · decide
  · decide

theorem doneStep_names (s : St) (k : BKey) : (doneStep s k).names = s.names := by
  simp only [doneStep]
  split
  · rfl
  · split
    · split <;> rfl
    · rfl

theorem doneStep_numtotal (s : St) (k : BKey) :
    (doneStep s k).numtotal = s.numtotal := by
  simp only [doneStep]
  split
  · rfl
  · split
    · split <;> rfl
    · rfl

theorem doneStep_builds_ne (s : St) (k k2 : BKey) (h : k2 ≠ k) :
    (doneStep s k).builds k2 = s.builds k2 := by
  simp only [doneStep]
  split
  · rfl
  · split
    · split
      · simp [pushWork, setBuild, h]
      · simp [setBuild, h]
    · rfl

theorem doneStep_builds_self (s : St) (k : BKey) (r : BuildRec)
    (h : s.builds k = some r) :
    (doneStep s k).builds k
      = some (if r.flags.work then { r with nblock := decWrap r.nblock } else r) := by
  simp only [doneStep, h]
  split
  · rename_i hw
    split
    · simp [pushWork, setBuild, hw]
    · simp [setBuild, hw]
  · rename_i hw
    simp only [Bool.not_eq_true] at hw
    simp [h, hw]

theorem doneStep_work_mem (s : St) (k u : BKey) :
    u ∈ (doneStep s k).work
      ↔ u ∈ s.work
        ∨ (u = k ∧ ∃ r, s.builds k = some r ∧ r.flags.work = true
            ∧ decWrap r.nblock = 0) := by
  simp only [doneStep]
  split
  · rename_i hnone
    simp [hnone]
  · rename_i r hsome
    split
    · rename_i hw
      split
      · rename_i hz
        simp only [pushWork, work_setBuild, List.mem_cons]
        constructor
        · rintro (he | hm)
          · exact Or.inr ⟨he, r, hsome, hw, hz⟩
          · exact Or.inl hm
        · rintro (hm | ⟨he, _⟩)
          · exact Or.inr hm
          · exact Or.inl he
      · rename_i hz
        simp only [work_setBuild]
        constructor
        · exact Or.inl
        · rintro (hm | ⟨he, r2, hr2, hw2, hz2⟩)
          · exact hm
          · rw [hsome] at hr2
            injection hr2 with hr2
            subst hr2
            exact absurd hz2 hz
    · rename_i hw
      simp only [Bool.not_eq_true] at hw
      constructor
      · exact Or.inl
      · rintro (hm | ⟨he, r2, hr2, hw2, _⟩)
        · exact hm
        · rw [hsome] at hr2
          injection hr2 with hr2
          subst hr2
          rw [hw] at hw2
          exact Bool.noConfusion hw2

theorem doneFold_names (l : List BKey) : ∀ s : St,
    (l.foldl doneStep s).names = s.names := by
  induction l with
  | nil => intro s; rfl
  | cons x xs ih =>
    intro s
    rw [List.foldl_cons, ih (doneStep s x), doneStep_names]

theorem doneFold_numtotal (l : List BKey) : ∀ s : St,
    (l.foldl doneStep s).numtotal = s.numtotal := by
  induction l with
  | nil => intro s; rfl
  | cons x xs ih =>
    intro s
    rw [List.foldl_cons, ih (doneStep s x), doneStep_numtotal]

theorem doneFold_spec (l : List BKey) : ∀ (s : St) (u : BKey) (ru : BuildRec),
    l.Nodup → s.builds u = some ru →
    ((u ∈ l → (l.foldl doneStep s).builds u
        = some (if ru.flags.work then { ru with nblock := decWrap ru.nblock } else ru))
     ∧ (u ∉ l → (l.foldl doneStep s).builds u = some ru)
     ∧ (u ∈ (l.foldl doneStep s).work
        ↔ u ∈ s.work ∨ (u ∈ l ∧ ru.flags.work = true ∧ decWrap ru.nblock = 0))) := by
  induction l with
  | nil =>
    intro s u ru _ hb
    refine ⟨fun hm => absurd hm (List.not_mem_nil u), fun _ => hb, ?_⟩
    simp
  | cons x xs ih =>
    intro s u ru hnd hb
    rw [List.nodup_cons] at hnd
    obtain ⟨hx, hnd⟩ := hnd
    by_cases hux : u = x
    · subst hux
      have hb1 := doneStep_builds_self s u ru hb
      have hu_not : u ∉ xs := hx
      obtain ⟨_, c2, c3⟩ := ih (doneStep s u) u
        (if ru.flags.work then { ru with nblock := decWrap ru.nblock } else ru)
        hnd hb1
      refine ⟨fun _ => ?_, fun hno => absurd (List.mem_cons_self u xs) hno, ?_⟩
      · rw [List.foldl_cons]
        exact c2 hu_not
      · rw [List.foldl_cons, c3]
        rw [doneStep_work_mem]
        constructor
        · rintro ((hm | ⟨_, r2, hr2, hw2, hz2⟩) | ⟨hm, _⟩)
          · exact Or.inl hm
          · rw [hb] at hr2
            injection hr2 with hr2
            subst hr2
            exact Or.inr ⟨List.mem_cons_self u xs, hw2, hz2⟩
          · exact absurd hm hu_not
        · rintro (hm | ⟨_, hw2, hz2⟩)
          · exact Or.inl (Or.inl hm)
          · exact Or.inl (Or.inr ⟨rfl, ru, hb, hw2, hz2⟩)
    · have hb1 : (doneStep s x).builds u = some ru := by
        rw [doneStep_builds_ne s x u hux, hb]
      obtain ⟨c1, c2, c3⟩ := ih (doneStep s x) u ru hnd hb1
      refine ⟨?_, ?_, ?_⟩
      · intro hm
        rcases List.mem_cons.mp hm with he | hm2
        · exact absurd he hux
        · rw [List.foldl_cons]
          exact c1 hm2
      · intro hno
        rw [List.foldl_cons]
        exact c2 (fun hm2 => hno (List.mem_cons_of_mem x hm2))
      · rw [List.foldl_cons, c3, doneStep_work_mem]
        constructor
        · rintro ((hm | ⟨he, _⟩) | ⟨hm, hw2, hz2⟩)
          · exact Or.inl hm
          · exact absurd he hux
          · exact Or.inr ⟨List.mem_cons_of_mem x hm, hw2, hz2⟩
        · rintro (hm | ⟨hm, hw2, hz2⟩)
          · exact Or.inl (Or.inl hm)
          · rcases List.mem_cons.mp hm with he | hm2
            · exact absurd he hux
            · exact Or.inr ⟨hm2, hw2, hz2⟩

theorem use_setDirtyName (st : St) (n : String) (v : Bool) :
    (setDirtyName st n v).names.use = st.names.use := rfl

theorem pkgnamedone_use (s : St) (p : String) :
    (pkgnamedone s p).names.use = s.names.use := by
  simp only [pkgnamedone]
  rw [doneFold_names]
  rfl

theorem pkgnamedone_numtotal (s : St) (p : String) :
    (pkgnamedone s p).numtotal = s.numtotal := by
  simp only [pkgnamedone]
  rw [doneFold_numtotal]
  rfl

theorem pkgnamedone_dirty (s : St) (p q : String) :
    (pkgnamedone s p).names.dirty q = if q = p then false else s.names.dirty q := by
  simp only [pkgnamedone]
  rw [doneFold_names]
  simp [setDirtyName, setDirty]

theorem pkgnamedone_spec (s : St) (p : String) (u : BKey) (ru : BuildRec)
    (hnd : (s.names.use p).Nodup) (hb : s.builds u = some ru) :
    ((u ∈ s.names.use p → (pkgnamedone s p).builds u
        = some (if ru.flags.work then { ru with nblock := decWrap ru.nblock } else ru))
     ∧ (u ∉ s.names.use p → (pkgnamedone s p).builds u = some ru)
     ∧ (u ∈ (pkgnamedone s p).work
        ↔ u ∈ s.work
          ∨ (u ∈ s.names.use p ∧ ru.flags.work = true ∧ decWrap ru.nblock = 0))) := by
  have h1 : (setDirtyName s p false).names.use p = s.names.use p := rfl
  have h2 : (setDirtyName s p false).builds u = s.builds u := rfl
  have h3 : (setDirtyName s p false).work = s.work := rfl
  simp only [pkgnamedone, h1]
  exact doneFold_spec (s.names.use p) (setDirtyName s p false) u ru hnd
    (by rw [h2]; exact hb)

theorem doneNames_use (ps : List String) : ∀ s : St,
    (ps.foldl pkgnamedone s).names.use = s.names.use := by
  induction ps with
  | nil => intro s; rfl
  | cons p ps ih =>
    intro s
    rw [List.foldl_cons, ih (pkgnamedone s p), pkgnamedone_use]

theorem doneNames_numtotal (ps : List String) : ∀ s : St,
    (ps.foldl pkgnamedone s).numtotal = s.numtotal := by
  induction ps with
  | nil => intro s; rfl
  | cons p ps ih =>
    intro s
    rw [List.foldl_cons, ih (pkgnamedone s p), pkgnamedone_numtotal]

theorem doneNames_dirty_false (ps : List String) : ∀ (s : St) (q : String),
    s.names.dirty q = false → (ps.foldl pkgnamedone s).names.dirty q = false := by
  induction ps with
  | nil => intro s q h; exact h
  | cons p ps ih =>
    intro s q h
    rw [List.foldl_cons]
    refine ih (pkgnamedone s p) q ?_
    rw [pkgnamedone_dirty]
    split
    · rfl
    · exact h

theorem doneNames_dirty_mem (ps : List String) : ∀ (s : St) (q : String),
    q ∈ ps → (ps.foldl pkgnamedone s).names.dirty q = false := by
  induction ps with
  | nil => intro s q h; exact absurd h (List.not_mem_nil q)
  | cons p ps ih =>
    intro s q h
    rcases List.mem_cons.mp h with he | hm
    · subst he
      rw [List.foldl_cons]
      refine doneNames_dirty_false ps (pkgnamedone s q) q ?_
      rw [pkgnamedone_dirty]
      simp
    · rw [List.foldl_cons]
      exact ih (pkgnamedone s p) q hm

theorem doneNames_spec (ps : List String) : ∀ (s : St) (u : BKey) (ru : BuildRec),
    (ps.flatMap s.names.use).Nodup → s.builds u = some ru →
    ((u ∈ ps.flatMap s.names.use → (ps.foldl pkgnamedone s).builds u
        = some (if ru.flags.work then { ru with nblock := decWrap ru.nblock } else ru))
     ∧ (u ∉ ps.flatMap s.names.use → (ps.foldl pkgnamedone s).builds u = some ru)
     ∧ (u ∈ (ps.foldl pkgnamedone s).work
        ↔ u ∈ s.work
          ∨ (u ∈ ps.flatMap s.names.use ∧ ru.flags.work = true
              ∧ decWrap ru.nblock = 0))) := by
  induction ps with
  | nil =>
    intro s u ru _ hb
    refine ⟨fun hm => absurd hm (by simp), fun _ => hb, by simp⟩
  | cons p ps ih =>
    intro s u ru hnd hb
    rw [List.flatMap_cons, List.nodup_append] at hnd
    obtain ⟨nd1, nd2, disj⟩ := hnd
    have huse : (pkgnamedone s p).names.use = s.names.use := pkgnamedone_use s p
    have hbind : ps.flatMap (pkgnamedone s p).names.use = ps.flatMap s.names.use := by
      rw [huse]
    obtain ⟨p1, p2, p3⟩ := pkgnamedone_spec s p u ru nd1 hb
    by_cases hup : u ∈ s.names.use p
    · have hnot2 : u ∉ ps.flatMap s.names.use := fun hm => disj hup hm
      have hb1 := p1 hup
      obtain ⟨_, c2, c3⟩ := ih (pkgnamedone s p) u
        (if ru.flags.work then { ru with nblock := decWrap ru.nblock } else ru)
        (by rw [hbind]; exact nd2) hb1
      refine ⟨fun _ => ?_, fun hno => ?_, ?_⟩
      · rw [List.foldl_cons]
        exact c2 (by rw [hbind]; exact hnot2)
      · exact absurd (by rw [List.flatMap_cons]; exact List.mem_append_left _ hup) hno
      · rw [List.foldl_cons, c3, hbind]
        constructor
        · rintro (hm | ⟨hm2, _⟩)
          · rcases p3.mp hm with hm3 | ⟨_, hw, hz⟩
            · exact Or.inl hm3
            · exact Or.inr ⟨by rw [List.flatMap_cons]; exact List.mem_append_left _ hup, hw, hz⟩
          · exact absurd hm2 hnot2
        · rintro (hm | ⟨_, hw, hz⟩)
          · exact Or.inl (p3.mpr (Or.inl hm))
          · exact Or.inl (p3.mpr (Or.inr ⟨hup, hw, hz⟩))
    · have hb1 := p2 hup
      obtain ⟨c1, c2, c3⟩ := ih (pkgnamedone s p) u ru (by rw [hbind]; exact nd2) hb1
      refine ⟨?_, ?_, ?_⟩
      · intro hm
        rw [List.flatMap_cons] at hm
        rcases List.mem_append.mp hm with hm1 | hm2
        · exact absurd hm1 hup
        · rw [List.foldl_cons]
          exact c1 (by rw [hbind]; exact hm2)
      · intro hno
        rw [List.foldl_cons]
        refine c2 ?_
        rw [hbind]
        intro hm2
        exact hno (by rw [List.flatMap_cons]; exact List.mem_append_right _ hm2)
      · rw [List.foldl_cons, c3, hbind]
        constructor
        · rintro (hm | ⟨hm2, hw, hz⟩)
          · rcases p3.mp hm with hm3 | ⟨hm4, hw, hz⟩
            · exact Or.inl hm3
            · exact absurd hm4 hup
          · exact Or.inr ⟨by rw [List.flatMap_cons]; exact List.mem_append_right _ hm2, hw, hz⟩
        · rintro (hm | ⟨hm2, hw, hz⟩)
          · exact Or.inl (p3.mpr (Or.inl hm))
          · rw [List.flatMap_cons] at hm2
            rcases List.mem_append.mp hm2 with hm3 | hm4
            · exact absurd hm3 hup
            · exact Or.inr ⟨hm4, hw, hz⟩

/-- C6: on reaping a build subprocess, builddone renames the temporary log
to .err on failure and changes nothing else (no nblock decrement reaches
any dependent); on success it renames it to .log, clears the DIRTY flag of
the build, and propagates completion through pkgnamedone for the owning
pkgname and every subpackage name: every WORK flagged build using one of
those names has its nblock decremented (with the size_t wraparound of the
source) and is queued exactly when it reaches zero; builds not using any of
the names, or without WORK, are untouched. Stated under the hypotheses that
the use lists involved are free of duplicates and do not contain the
completed build itself. -/
theorem c6_builddone (st : St) (k : BKey) (r : BuildRec)
    (hr : st.builds k = some r)
    (hnd : ((k.1 :: r.subpkgs).flatMap st.names.use).Nodup)
    (hk : k ∉ (k.1 :: r.subpkgs).flatMap st.names.use) :
    (builddone st k true).renamedTo = ".err"
    ∧ (builddone st k true).st = st
    ∧ (builddone st k false).renamedTo = ".log"
    ∧ (builddone st k false).st.builds k
        = some { r with flags := { r.flags with dirty := false } }
    ∧ (∀ p, p ∈ k.1 :: r.subpkgs → (builddone st k false).st.names.dirty p = false)
    ∧ ∀ u ru, st.builds u = some ru → u ≠ k →
        ((u ∈ (k.1 :: r.subpkgs).flatMap st.names.use →
            (builddone st k false).st.builds u
              = some (if ru.flags.work then { ru with nblock := decWrap ru.nblock } else ru)
            ∧ ((u ∈ (builddone st k false).st.work)
                ↔ u ∈ st.work ∨ (ru.flags.work = true ∧ decWrap ru.nblock = 0)))
         ∧ (u ∉ (k.1 :: r.subpkgs).flatMap st.names.use →
            (builddone st k false).st.builds u = some ru
            ∧ ((u ∈ (builddone st k false).st.work) ↔ u ∈ st.work))) := by
  have hget : getBuild st k = r := by rw [getBuild, hr]; rfl
  have hbf : builddone st k false
      = { renamedTo := ".log",
          st := pkgDoneAll (updBuild st k
            (fun r => { r with flags := { r.flags with dirty := false } })) k } := by
    simp [builddone]
  set stc := updBuild st k
    (fun r => { r with flags := { r.flags with dirty := false } }) with hstc
  have hb2 : stc.builds k = some { r with flags := { r.flags with dirty := false } } := by
    rw [hstc, builds_updBuild_self, hget]
  have hg2 : getBuild stc k = { r with flags := { r.flags with dirty := false } } := by
    rw [getBuild, hb2]; rfl
  have hnames : stc.names = st.names := rfl
  have hwork : stc.work = st.work := rfl
  have hall : pkgDoneAll stc k
      = (k.1 :: r.subpkgs).foldl pkgnamedone stc := by
    rw [pkgDoneAll, hg2]
  have hflat : (k.1 :: r.subpkgs).flatMap stc.names.use
      = (k.1 :: r.subpkgs).flatMap st.names.use := by rw [hnames]
  refine ⟨rfl, rfl, by rw [hbf], ?_, ?_, ?_⟩
  · rw [hbf]
    simp only [hall]
    obtain ⟨_, c2, _⟩ := doneNames_spec (k.1 :: r.subpkgs) stc k
      { r with flags := { r.flags with dirty := false } }
      (by rw [hflat]; exact hnd) hb2
    exact c2 (by rw [hflat]; exact hk)
  · intro p hp
    rw [hbf]
    simp only [hall]
    exact doneNames_dirty_mem (k.1 :: r.subpkgs) stc p hp
  · intro u ru hbu hne
    have hbu2 : stc.builds u = some ru := by
      rw [hstc, builds_updBuild_ne _ _ _ _ hne]
      exact hbu
    obtain ⟨c1, c2, c3⟩ := doneNames_spec (k.1 :: r.subpkgs) stc u ru
      (by rw [hflat]; exact hnd) hbu2
    constructor
    · intro hm
      refine ⟨?_, ?_⟩
      · rw [hbf]; simp only [hall]
        exact c1 (by rw [hflat]; exact hm)
      · rw [hbf]; simp only [hall]
        rw [c3, hflat, hwork]
        constructor
        · rintro (h1 | ⟨_, hw, hz⟩)
          · exact Or.inl h1
          · exact Or.inr ⟨hw, hz⟩
        · rintro (h1 | ⟨hw, hz⟩)
          · exact Or.inl h1
          · exact Or.inr ⟨hm, hw, hz⟩
    · intro hm
      refine ⟨?_, ?_⟩
      · rw [hbf]; simp only [hall]
        exact c2 (by rw [hflat]; exact hm)
      · rw [hbf]; simp only [hall]
        rw [c3, hflat, hwork]
        constructor
        · rintro (h1 | ⟨hm2, _⟩)
          · exact h1
          · exact absurd hm2 hm
        · exact Or.inl

/-- Witness for c6_builddone: build d (use edge to build u with nblock 1)
completes successfully; u is decremented to 0 and queued. -/
theorem c6_witness :
    c6st.builds ("d", "x86_64") = some c6r
    ∧ ((("d", "x86_64").1 :: c6r.subpkgs).flatMap c6st.names.use).Nodup
    ∧ ("d", "x86_64") ∉ (("d", "x86_64").1 :: c6r.subpkgs).flatMap c6st.names.use
    ∧ (builddone c6st ("d", "x86_64") true).renamedTo = ".err"
    ∧ (builddone c6st ("d", "x86_64") true).st = c6st
    ∧ (builddone c6st ("d", "x86_64") false).st.builds ("d", "x86_64")
        = some { c6r with flags := { c6r.flags with dirty := false } }
    ∧ ((builddone c6st ("d", "x86_64") false).st.builds ("u", "x86_64")
        = some (if c6ru.flags.work then { c6ru with nblock := decWrap c6ru.nblock }
                else c6ru)
      ∧ ((("u", "x86_64") ∈ (builddone c6st ("d", "x86_64") false).st.work)
          ↔ ("u", "x86_64") ∈ c6st.work
            ∨ (c6ru.flags.work = true ∧ decWrap c6ru.nblock = 0))) := by
  have h := c6_builddone c6st ("d", "x86_64") c6r (by decide) (by decide) (by decide)
  exact ⟨by decide, by decide, by decide, h.1, h.2.1, h.2.2.2.1,
    (h.2.2.2.2.2 ("u", "x86_64") c6ru (by decide) (by decide)).1 (by decide)⟩

/-- C9: the dispatcher loop never has more than maxjobs live children. In
every state reachable from the loop entry, numjobs equals the number of
live children and is bounded by maxjobs; a step increments numjobs only
when it was below maxjobs (the start guard); and from a state with an
empty work queue and no live job no further step is possible (the loop
breaks when numjobs reaches 0). Dry run and normal mode are both covered
by the dryrun parameter. -/
theorem c9_dispatch (fs : Fs) (fuel maxjobs : Nat) (dryrun : Bool) (st0 : St)
    (s : DSt)
    (h : Relation.ReflTransGen (DStep fs fuel maxjobs dryrun) (dispatchInit st0) s) :
    (s.numjobs = s.running.length ∧ s.numjobs ≤ maxjobs)
    ∧ (∀ t t2, DStep fs fuel maxjobs dryrun t t2 →
        t2.numjobs = t.numjobs + 1 → t.numjobs < maxjobs)
    ∧ (s.gst.work = [] → s.numjobs = 0 →
        ∀ s2, ¬ DStep fs fuel maxjobs dryrun s s2) := by
  have hstep : ∀ t t2, DStep fs fuel maxjobs dryrun t t2 →
      t2.numjobs = t.numjobs + 1 → t.numjobs < maxjobs := by
    intro t t2 hs
    cases hs with
    | start k b w hw hn hd hb => intro _; exact hn
    | startFail k w hw hn hd => intro he; dsimp only at he; omega
    | dry k w hw hn hd => intro he; dsimp only at he; omega
    | reapBuild k b u v failed hrun hdeps => intro he; dsimp only at he; omega
    | reapGendepFail k b u v hrun hdeps => intro he; dsimp only at he; omega
    | reapGendepOk k b u v st2 hrun hdeps hg => intro he; dsimp only at he; omega
  have hinv : s.numjobs = s.running.length ∧ s.numjobs ≤ maxjobs := by
    induction h with
    | refl => exact ⟨rfl, Nat.zero_le _⟩
    | tail h1 h2 ih =>
      obtain ⟨ih1, ih2⟩ := ih
      cases h2 with
      | start k b w hw hn hd hb =>
        refine ⟨?_, hn⟩
        dsimp only
        rw [List.length_cons, ih1]
      | startFail k w hw hn hd => exact ⟨ih1, ih2⟩
      | dry k w hw hn hd => exact ⟨ih1, ih2⟩
      | reapBuild k b u v failed hrun hdeps =>
        constructor
        · dsimp only
          rw [ih1, hrun]
          simp [List.length_append]
        · dsimp only
          omega
      | reapGendepFail k b u v hrun hdeps =>
        constructor
        · dsimp only
          rw [ih1, hrun]
          simp [List.length_append]
        · dsimp only
          omega
      | reapGendepOk k b u v st2 hrun hdeps hg =>
        constructor
        · dsimp only
          rw [ih1, hrun]
          simp [List.length_append]
        · dsimp only
          omega
  refine ⟨hinv, hstep, ?_⟩
  intro hwk hnj s2 hs
  have hrun : s.running = [] := by
    have h2 := hinv.1
    rw [hnj] at h2
    exact (List.length_eq_zero.mp h2.symm)
  cases hs with
  | start k b w hw hn hd hb => rw [hwk] at hw; exact List.noConfusion hw
  | startFail k w hw hn hd => rw [hwk] at hw; exact List.noConfusion hw
  | dry k w hw hn hd => rw [hwk] at hw; exact List.noConfusion hw
  | reapBuild k b u v failed hr2 hdeps =>
    rw [hrun] at hr2
    exact List.noConfusion (List.append_eq_nil.mp hr2.symm).2
  | reapGendepFail k b u v hr2 hdeps =>
    rw [hrun] at hr2
    exact List.noConfusion (List.append_eq_nil.mp hr2.symm).2
  | reapGendepOk k b u v st2 hr2 hdeps hg =>
    rw [hrun] at hr2
    exact List.noConfusion (List.append_eq_nil.mp hr2.symm).2

/-- Witness for c9_dispatch at the loop entry state. -/
theorem c9_witness :
    ((dispatchInit initSt).numjobs = (dispatchInit initSt).running.length
      ∧ (dispatchInit initSt).numjobs ≤ 2)
    ∧ ((dispatchInit initSt).gst.work = [] → (dispatchInit initSt).numjobs = 0 →
        ∀ s2, ¬ DStep c9wfs 3 2 false (dispatchInit initSt) s2) :=
  ⟨(c9_dispatch c9wfs 3 2 false initSt (dispatchInit initSt)
      Relation.ReflTransGen.refl).1,
   (c9_dispatch c9wfs 3 2 false initSt (dispatchInit initSt)
      Relation.ReflTransGen.refl).2.2⟩
